import Mathlib

/-!
Verification of the cfgate operator core (DNS sync reconciler, HTTPRoute
reconciler, cloudflared tunnel configuration, credential cache) against its
natural-language specification.  The Go sources under `internal/cloudflare`,
`internal/cloudflared`, `internal/controller` and `api/v1alpha1` are embedded
shallowly: pure Go functions become Lean functions, the Cloudflare API client
becomes explicit state passing over a zone store together with a log of issued
API calls, and fallible calls return `Except`.
-/

/-! ## String utilities (Go `strings` package operations used by the source) -/

/-- Go `strings.Contains s sub`: `sub` occurs somewhere inside `s`. -/
def strContains (s sub : String) : Bool :=
  s.toList.tails.any (fun t => sub.toList.isPrefixOf t)

/-- Go `strings.HasPrefix s pre`: `s` starts with `pre`. -/
def strStartsWith (s pre : String) : Bool :=
  pre.toList.isPrefixOf s.toList

/-- Go `strings.Split s "."` on the character level: split a character list at
every `'.'`.  Always returns at least one (possibly empty) part. -/
def splitDot : List Char → List (List Char)
  | [] => [[]]
  | c :: cs =>
    if c = '.' then [] :: splitDot cs
    else
      match splitDot cs with
      | [] => [[c]]
      | p :: ps => (c :: p) :: ps

/-- Go `strings.Join parts "."` on the character level. -/
def joinDot : List (List Char) → List Char
  | [] => []
  | [l] => l
  | l :: ls => l ++ '.' :: joinDot ls

theorem splitDot_ne_nil (l : List Char) : splitDot l ≠ [] := by
  induction l with
  | nil => simp [splitDot]
  | cons c cs ih =>
    simp only [splitDot]
    split
    · simp
    · cases h : splitDot cs <;> simp

theorem splitDot_no_dot (l : List Char) (h : '.' ∉ l) : splitDot l = [l] := by
  induction l with
  | nil => rfl
  | cons c cs ih =>
    simp only [List.mem_cons, not_or] at h
    have hcne : ¬ c = '.' := fun hc => h.1 hc.symm
    simp only [splitDot, if_neg hcne, ih h.2]

theorem splitDot_append_dot (l rest : List Char) (h : '.' ∉ l) :
    splitDot (l ++ '.' :: rest) = l :: splitDot rest := by
  induction l with
  | nil => simp [splitDot]
  | cons c cs ih =>
    simp only [List.mem_cons, not_or] at h
    have hcne : ¬ c = '.' := fun hc => h.1 hc.symm
    have ih' := ih h.2
    simp only [List.cons_append, splitDot, if_neg hcne]
    show (match splitDot (cs ++ '.' :: rest) with
        | [] => [[c]]
        | p :: ps => (c :: p) :: ps) = (c :: cs) :: splitDot rest
    rw [ih']

theorem splitDot_joinDot (ls : List (List Char)) (hne : ls ≠ [])
    (h : ∀ l ∈ ls, '.' ∉ l) : splitDot (joinDot ls) = ls := by
  induction ls with
  | nil => exact absurd rfl hne
  | cons l ls ih =>
    cases ls with
    | nil =>
      simp only [joinDot]
      exact splitDot_no_dot l (h l (by simp))
    | cons l₂ ls₂ =>
      have hl : '.' ∉ l := h l (by simp)
      have hrest : ∀ x ∈ l₂ :: ls₂, '.' ∉ x := fun x hx => h x (by simp [hx])
      simp only [joinDot]
      rw [splitDot_append_dot l _ hl, ih (by simp) hrest]

/-! ## DNS record data model (`internal/cloudflare`) -/

/-- `DNSRecord` from the cloudflare package.  The Go field `Type` is renamed
`Type'` because `Type` is reserved in Lean. -/
structure DNSRecord where
  ID : String
  Type' : String
  Name : String
  Content : String
  TTL : Int
  Proxied : Bool
  Comment : String
deriving DecidableEq, Repr, Inhabited

/-- `IsOwnedByCfgate` (dns.go): ownership is decided by the record comment
containing the sentinel, optionally refined by a `tunnel=<name>` tag.  The
`ownershipPfx` argument mirrors the (unused) `ownershipPrefix` parameter of
the Go function. -/
def IsOwnedByCfgate (record : DNSRecord) (ownershipPfx tunnelName : String) : Bool :=
  if strContains record.Comment "managed by cfgate" then
    if tunnelName = "" then true
    else strContains record.Comment ("tunnel=" ++ tunnelName)
  else false

/-- `recordsMatch` (dns.go): two records have the same synced content. -/
def recordsMatch (a b : DNSRecord) : Bool :=
  a.Content == b.Content && a.Proxied == b.Proxied && a.TTL == b.TTL &&
    a.Comment == b.Comment

/-- The record-selection step of `FindRecordByName` (dns.go): the first record
matching a `(name, type)` pair. -/
def findRecordInList (records : List DNSRecord) (name recordType : String) :
    Option DNSRecord :=
  records.find? (fun record => record.Name == name && record.Type' == recordType)

/-- The filtering step of `ListManagedRecords` (dns.go): keep records whose
comment carries the ownership sentinel, plus TXT records whose name starts
with the ownership prefix followed by a dot. -/
def managedRecordsFilter (records : List DNSRecord) (ownershipPfx : String) :
    List DNSRecord :=
  records.filter (fun record =>
    strContains record.Comment "managed by cfgate" ||
      (record.Type' == "TXT" && strStartsWith record.Name (ownershipPfx ++ ".")))

/-- `ExtractZoneFromHostname` (dns.go): keep the last two dot-separated
labels. -/
def ExtractZoneFromHostname (hostname : String) : String :=
  let parts := splitDot hostname.toList
  if parts.length < 2 then hostname
  else ⟨joinDot (parts.drop (parts.length - 2))⟩

/-- `BuildCNAMERecord` (dns.go). -/
def BuildCNAMERecord (hostname tunnelDomain : String) (proxied : Bool)
    (comment : String) : DNSRecord :=
  { ID := ""
    Type' := "CNAME"
    Name := hostname
    Content := tunnelDomain
    TTL := 1
    Proxied := proxied
    Comment := comment }

/-- `BuildOwnershipTXTRecord` (dns.go). -/
def BuildOwnershipTXTRecord (hostname tunnelName ownershipPfx : String) : DNSRecord :=
  { ID := ""
    Type' := "TXT"
    Name := ownershipPfx ++ "." ++ hostname
    Content := "managed by cfgate, tunnel=" ++ tunnelName
    TTL := 1
    Proxied := false
    Comment := "cfgate ownership record" }

/-- C9: for every hostname made of at least two dot-free labels,
`ExtractZoneFromHostname` returns the last two labels joined by a dot,
whatever the leading labels are. -/
theorem extractZone_last_two_labels (pre : List (List Char)) (a b : List Char)
    (hpre : ∀ l ∈ pre, '.' ∉ l) (ha : '.' ∉ a) (hb : '.' ∉ b) :
    ExtractZoneFromHostname ⟨joinDot (pre ++ [a, b])⟩ = ⟨a ++ '.' :: b⟩ := by
  have hall : ∀ l ∈ pre ++ [a, b], '.' ∉ l := by
    intro l hl
    rcases List.mem_append.mp hl with hmem | hmem
    · exact hpre l hmem
    · simp only [List.mem_cons, List.not_mem_nil, or_false] at hmem
      rcases hmem with rfl | rfl
      · exact ha
      · exact hb
  have hsplit : splitDot (String.toList ⟨joinDot (pre ++ [a, b])⟩) = pre ++ [a, b] := by
    show splitDot (joinDot (pre ++ [a, b])) = pre ++ [a, b]
    exact splitDot_joinDot _ (by simp) hall
  simp only [ExtractZoneFromHostname]
  rw [hsplit]
  have hlen : (pre ++ [a, b]).length = pre.length + 2 := by simp
  rw [hlen]
  have hnotlt : ¬ pre.length + 2 < 2 := by omega
  rw [if_neg hnotlt]
  have hdrop : (pre ++ [a, b]).drop (pre.length + 2 - 2) = [a, b] := by
    have h2 : pre.length + 2 - 2 = pre.length := by omega
    rw [h2]
    exact List.drop_left pre [a, b]
  rw [hdrop]
  rfl

/-- Witness for C9 at the concrete hostname `app.example.com`
(`["app"] ++ ["example", "com"]`), whose zone is `example.com`. -/
theorem extractZone_last_two_labels_witness :
    ExtractZoneFromHostname
        ⟨joinDot ([['a','p','p']] ++
          [['e','x','a','m','p','l','e'], ['c','o','m']])⟩ =
      ⟨['e','x','a','m','p','l','e'] ++ '.' :: ['c','o','m']⟩ :=
  extractZone_last_two_labels [['a','p','p']] ['e','x','a','m','p','l','e']
    ['c','o','m'] (by decide) (by decide) (by decide)

/-! ## Cloudflare API client model

The `Client` interface (cloudflare-go wrapper) is external to the reconciler
code: it is modelled as explicit state passing over a per-zone record store
together with a log of the API calls the reconciler issues.  Transient API
failures are modelled as per-zone list failures (`listFail`), which is where
the reconciler code branches on client errors. -/

/-- One mutating Cloudflare API call issued by the operator. -/
inductive APICall where
  | create (zoneID : String) (record : DNSRecord)
  | update (zoneID recordID : String) (record : DNSRecord)
  | delete (zoneID recordID : String)
deriving DecidableEq, Repr

/-- The record store of one zone, with a counter for server-assigned IDs. -/
structure ZoneState where
  records : List DNSRecord
  nextID : Nat

/-- Server-assigned ID for the `n`-th record created in a zone. -/
def freshID (n : Nat) : String := "cf-id-" ++ toString n

/-- The external Cloudflare state seen through the client. -/
structure CFState where
  zones : String → ZoneState
  listFail : String → Bool
  zoneByName : String → Option String

/-- Replace the state of one zone. -/
def setZone (st : CFState) (zoneID : String) (z : ZoneState) : CFState :=
  { st with zones := fun w => if w = zoneID then z else st.zones w }

/-- Client `ListDNSRecords`. -/
def ListDNSRecords (st : CFState) (zoneID : String) : Except String (List DNSRecord) :=
  if st.listFail zoneID then Except.error "failed to list DNS records"
  else Except.ok (st.zones zoneID).records

/-- Client `CreateDNSRecord`: the server assigns a fresh ID. -/
def CreateDNSRecord (st : CFState) (zoneID : String) (record : DNSRecord) :
    CFState × DNSRecord × List APICall :=
  let z := st.zones zoneID
  let created := { record with ID := freshID z.nextID }
  (setZone st zoneID { records := z.records ++ [created], nextID := z.nextID + 1 },
   created, [APICall.create zoneID record])

/-- Client `UpdateDNSRecord`: overwrite the record with the given ID. -/
def UpdateDNSRecord (st : CFState) (zoneID recordID : String) (record : DNSRecord) :
    CFState × DNSRecord × List APICall :=
  let z := st.zones zoneID
  let updated := { record with ID := recordID }
  (setZone st zoneID
    { z with records := z.records.map (fun q => if q.ID = recordID then updated else q) },
   updated, [APICall.update zoneID recordID record])

/-- Client `DeleteDNSRecord`: remove the record with the given ID. -/
def DeleteDNSRecord (st : CFState) (zoneID recordID : String) : CFState × List APICall :=
  let z := st.zones zoneID
  (setZone st zoneID { z with records := z.records.filter (fun q => q.ID != recordID) },
   [APICall.delete zoneID recordID])

/-! ## DNSService operations (dns.go) -/

/-- `FindRecordByName` (dns.go): list the zone and return the first record
matching `(name, type)`, `none` when absent. -/
def FindRecordByName (st : CFState) (zoneID name recordType : String) :
    Except String (Option DNSRecord) :=
  match ListDNSRecords st zoneID with
  | Except.error e => Except.error ("failed to list DNS records: " ++ e)
  | Except.ok records => Except.ok (findRecordInList records name recordType)

/-- `SyncRecord` (dns.go): create the record when absent, leave foreign
records untouched, update owned records when their content differs. -/
def SyncRecord (st : CFState) (zoneID : String) (desired : DNSRecord) :
    Except String (CFState × DNSRecord × Bool × List APICall) :=
  match FindRecordByName st zoneID desired.Name desired.Type' with
  | Except.error e => Except.error ("failed to find existing record: " ++ e)
  | Except.ok none =>
    let (st', record, calls) := CreateDNSRecord st zoneID desired
    Except.ok (st', record, true, calls)
  | Except.ok (some existing) =>
    if ! IsOwnedByCfgate existing "" "" then
      Except.ok (st, existing, false, [])
    else if recordsMatch existing desired then
      Except.ok (st, existing, false, [])
    else
      let (st', record, calls) := UpdateDNSRecord st zoneID existing.ID desired
      Except.ok (st', record, true, calls)

/-- `DeleteRecord` (dns.go). -/
def DeleteRecord (st : CFState) (zoneID recordID : String) : CFState × List APICall :=
  DeleteDNSRecord st zoneID recordID

/-- `ListManagedRecords` (dns.go). -/
def ListManagedRecords (st : CFState) (zoneID ownershipPfx : String) :
    Except String (List DNSRecord) :=
  match ListDNSRecords st zoneID with
  | Except.error e => Except.error ("failed to list DNS records: " ++ e)
  | Except.ok records => Except.ok (managedRecordsFilter records ownershipPfx)

/-- `CreateOwnershipRecord` (dns.go): upsert the companion TXT record. -/
def CreateOwnershipRecord (st : CFState) (zoneID hostname tunnelName ownershipPfx : String) :
    Except String (CFState × List APICall) :=
  let record := BuildOwnershipTXTRecord hostname tunnelName ownershipPfx
  match FindRecordByName st zoneID record.Name record.Type' with
  | Except.error e => Except.error ("failed to check existing ownership record: " ++ e)
  | Except.ok (some existing) =>
    if existing.Content == record.Content && existing.Comment == record.Comment then
      Except.ok (st, [])
    else
      let (st', _, calls) := UpdateDNSRecord st zoneID existing.ID record
      Except.ok (st', calls)
  | Except.ok none =>
    let (st', _, calls) := CreateDNSRecord st zoneID record
    Except.ok (st', calls)

/-- `DeleteOwnershipRecord` (dns.go): delete the companion TXT record when it
exists.  There is no ownership check on the record being deleted. -/
def DeleteOwnershipRecord (st : CFState) (zoneID hostname ownershipPfx : String) :
    Except String (CFState × List APICall) :=
  let txtName := ownershipPfx ++ "." ++ hostname
  match FindRecordByName st zoneID txtName "TXT" with
  | Except.error e => Except.error ("failed to find ownership record: " ++ e)
  | Except.ok none => Except.ok (st, [])
  | Except.ok (some record) => Except.ok (DeleteRecord st zoneID record.ID)

/-- `ResolveZone` (dns.go): zone lookup by name through the client. -/
def ResolveZone (st : CFState) (zoneName : String) : Option String :=
  st.zoneByName zoneName

/-! ## CloudflareDNSSync API types (api/v1alpha1) -/

/-- `TXTRecordOwnership`; the Go field `Prefix` is embedded as `Pfx`. -/
structure TXTRecordOwnership where
  Enabled : Bool
  Pfx : String

/-- `OwnershipConfig`. -/
structure OwnershipConfig where
  TXTRecord : TXTRecordOwnership

/-- `RecordDefaults`. -/
structure RecordDefaults where
  Proxied : Bool
  TTL : String

/-- `CleanupPolicy`. -/
structure CleanupPolicy where
  DeleteOnRouteRemoval : Bool
  DeleteOnResourceRemoval : Bool
  OnlyManaged : Bool

/-- `ZoneConfig`. -/
structure ZoneConfig where
  Name : String
  ID : String

/-- `GatewayRoutesSource`. -/
structure GatewayRoutesSource where
  Enabled : Bool
  AnnotationFilter : String

/-- `ExplicitHostname`: an explicit hostname element with its own target
template and proxied/TTL overrides. -/
structure ExplicitHostname where
  Hostname : String
  Target : String
  Proxied : Bool
  TTL : String

/-- `HostnameSource`. -/
structure HostnameSource where
  GatewayRoutes : GatewayRoutesSource
  Explicit : List ExplicitHostname

/-- `CloudflareDNSSyncSpec` (fields the reconciler reads). -/
structure CloudflareDNSSyncSpec where
  Zones : List ZoneConfig
  Source : HostnameSource
  Defaults : RecordDefaults
  Ownership : OwnershipConfig
  CleanupPolicy : CleanupPolicy
  FallbackCredentialsRef : Option String

/-- `DNSRecordStatus`. -/
structure DNSRecordStatus where
  Hostname : String
  Type' : String
  Target : String
  Proxied : Bool
  Status : String
  RecordID : String
  Error : String
deriving DecidableEq, Repr, Inhabited

/-- `CloudflareDNSSyncStatus` (fields `syncRecords` writes). -/
structure CloudflareDNSSyncStatus where
  SyncedRecords : Int
  PendingRecords : Int
  FailedRecords : Int
  Records : List DNSRecordStatus
deriving DecidableEq, Repr

/-- `CloudflareDNSSync` (spec plus the status fields the reconciler reads). -/
structure CloudflareDNSSync where
  Spec : CloudflareDNSSyncSpec
  Status : CloudflareDNSSyncStatus

/-- The fields of `CloudflareTunnel` the DNS sync reconciler reads:
`tunnel.Name` and `tunnel.Status.TunnelDomain`. -/
structure CloudflareTunnel where
  Name : String
  TunnelDomain : String

/-! ## DNS sync reconciler (cloudflarednsync_controller.go) -/

/-- `defaultOwnershipPrefix` constant of the controller. -/
def defaultOwnershipPfx : String := "_cfgate"

/-- The deduplication loop of `collectHostnames`: a `seen` set, keeping the
first occurrence of each hostname. -/
def dedupFirstSeen (seen : List String) : List String → List String
  | [] => []
  | h :: t =>
    if h ∈ seen then dedupFirstSeen seen t
    else h :: dedupFirstSeen (h :: seen) t

/-- `collectHostnames` (controller): explicit hostnames first, then (when
gateway routes are enabled) the route-derived hostnames, deduplicated.  The
cluster-dependent route listing (`collectHostnamesFromRoutes`) is abstracted
as the `routeHostnames` argument. -/
def collectHostnames (sync : CloudflareDNSSync) (routeHostnames : List String) :
    List String :=
  let hostnames :=
    sync.Spec.Source.Explicit.map (fun explicit => explicit.Hostname) ++
      (if sync.Spec.Source.GatewayRoutes.Enabled then routeHostnames else [])
  dedupFirstSeen [] hostnames

/-- Lookup in the resolved `zones` map (`zones[zoneName]` in Go). -/
def lookupZoneID (zones : List (String × String)) (zoneName : String) :
    Option String :=
  (zones.find? (fun p => p.1 == zoneName)).map (fun p => p.2)

/-- The per-hostname body of the `syncRecords` loop: find the zone, build the
desired CNAME, run `SyncRecord`, then upsert the companion TXT record when
TXT ownership is enabled (TXT failures are non-fatal).  Returns the new
state, the status entry, whether the hostname was counted as synced, and the
issued calls. -/
def syncOneHostname (st : CFState) (sync : CloudflareDNSSync)
    (tunnel : CloudflareTunnel) (zones : List (String × String))
    (ownershipPfx hostname : String) :
    CFState × DNSRecordStatus × Bool × List APICall :=
  let zoneName := ExtractZoneFromHostname hostname
  match lookupZoneID zones zoneName with
  | none =>
    (st,
     { Hostname := hostname, Type' := "CNAME", Target := "", Proxied := false,
       Status := "Failed", RecordID := "",
       Error := "zone " ++ zoneName ++ " not configured" },
     false, [])
  | some zoneID =>
    let comment := "managed by cfgate, tunnel=" ++ tunnel.Name
    let desired :=
      BuildCNAMERecord hostname tunnel.TunnelDomain sync.Spec.Defaults.Proxied comment
    match SyncRecord st zoneID desired with
    | Except.error e =>
      (st,
       { Hostname := hostname, Type' := "CNAME", Target := "", Proxied := false,
         Status := "Failed", RecordID := "", Error := e },
       false, [])
    | Except.ok (st1, record, _modified, calls1) =>
      let (st2, calls2) :=
        if sync.Spec.Ownership.TXTRecord.Enabled then
          match CreateOwnershipRecord st1 zoneID hostname tunnel.Name ownershipPfx with
          | Except.error _ => (st1, [])
          | Except.ok r => r
        else (st1, [])
      (st2,
       { Hostname := hostname, Type' := record.Type', Target := record.Content,
         Proxied := record.Proxied, Status := "Synced", RecordID := record.ID,
         Error := "" },
       true, calls1 ++ calls2)

/-- The orphan-deletion body of `syncRecords`: a previously synced hostname
that is no longer desired is looked up, checked for ownership, and deleted
(along with its companion TXT record when TXT ownership is enabled). -/
def deleteOrphan (st : CFState) (sync : CloudflareDNSSync)
    (zones : List (String × String)) (hostnames : List String)
    (ownershipPfx : String) (prevRecord : DNSRecordStatus) :
    CFState × List APICall :=
  if ! hostnames.contains prevRecord.Hostname && prevRecord.RecordID != "" then
    match lookupZoneID zones (ExtractZoneFromHostname prevRecord.Hostname) with
    | none => (st, [])
    | some zoneID =>
      match FindRecordByName st zoneID prevRecord.Hostname prevRecord.Type' with
      | Except.ok (some existingRecord) =>
        if IsOwnedByCfgate existingRecord "" "" then
          let (st1, calls1) := DeleteRecord st zoneID prevRecord.RecordID
          let (st2, calls2) :=
            if sync.Spec.Ownership.TXTRecord.Enabled then
              match DeleteOwnershipRecord st1 zoneID prevRecord.Hostname ownershipPfx with
              | Except.error _ => (st1, [])
              | Except.ok r => r
            else (st1, [])
          (st2, calls1 ++ calls2)
        else (st, [])
      | _ => (st, [])
  else (st, [])

/-- Accumulator of the `syncRecords` loops. -/
structure SyncAcc where
  st : CFState
  recordStatuses : List DNSRecordStatus
  syncedCount : Int
  pendingCount : Int
  failedCount : Int
  calls : List APICall

/-- The ownership-prefix defaulting step shared by `syncRecords` and
`cleanupRecordsWithFallback`. -/
def effectiveOwnershipPfx (sync : CloudflareDNSSync) : String :=
  if sync.Spec.Ownership.TXTRecord.Pfx = "" then defaultOwnershipPfx
  else sync.Spec.Ownership.TXTRecord.Pfx

/-- One iteration of the per-hostname loop of `syncRecords`. -/
def syncHostnameStep (sync : CloudflareDNSSync) (tunnel : CloudflareTunnel)
    (zones : List (String × String)) (ownershipPfx : String)
    (acc : SyncAcc) (hostname : String) : SyncAcc :=
  let (st', entry, ok, calls) :=
    syncOneHostname acc.st sync tunnel zones ownershipPfx hostname
  { st := st'
    recordStatuses := acc.recordStatuses ++ [entry]
    syncedCount := acc.syncedCount + (if ok then 1 else 0)
    pendingCount := acc.pendingCount
    failedCount := acc.failedCount + (if ok then 0 else 1)
    calls := acc.calls ++ calls }

/-- One iteration of the orphan-deletion loop of `syncRecords`. -/
def orphanStep (sync : CloudflareDNSSync) (zones : List (String × String))
    (hostnames : List String) (ownershipPfx : String)
    (acc : SyncAcc) (prevRecord : DNSRecordStatus) : SyncAcc :=
  let (st', calls) := deleteOrphan acc.st sync zones hostnames ownershipPfx prevRecord
  { acc with st := st', calls := acc.calls ++ calls }

/-- `syncRecords` (controller): sync every desired hostname, then delete
orphaned records from the previous status, and report the new status counts
(`pendingCount` is declared but never incremented, as in the source). -/
def syncRecords (st : CFState) (sync : CloudflareDNSSync)
    (tunnel : CloudflareTunnel) (hostnames : List String)
    (zones : List (String × String)) :
    CFState × CloudflareDNSSyncStatus × List APICall :=
  let ownershipPfx := effectiveOwnershipPfx sync
  let acc0 : SyncAcc := ⟨st, [], 0, 0, 0, []⟩
  let acc1 := hostnames.foldl (syncHostnameStep sync tunnel zones ownershipPfx) acc0
  let acc2 := sync.Status.Records.foldl
    (orphanStep sync zones hostnames ownershipPfx) acc1
  (acc2.st,
   { SyncedRecords := acc2.syncedCount
     PendingRecords := acc2.pendingCount
     FailedRecords := acc2.failedCount
     Records := acc2.recordStatuses },
   acc2.calls)

/-! ## Deletion path (cloudflarednsync_controller.go) -/

/-- Cluster-dependent outcomes of the deletion path: whether the referenced
tunnel resolves, whether its credentials secret yields a client, and whether
the fallback secret exists and carries the token key. -/
structure DeleteEnv where
  tunnelResolves : Bool
  tunnelClientOK : Bool
  fallbackSecretOK : Bool
  fallbackTokenOK : Bool

/-- `getCloudflareClientWithFallback`: tunnel credentials first, then the
fallback secret; an error when neither is available. -/
def getCloudflareClientWithFallback (env : DeleteEnv) (sync : CloudflareDNSSync) :
    Except String Unit :=
  if env.tunnelResolves && env.tunnelClientOK then Except.ok ()
  else
    match sync.Spec.FallbackCredentialsRef with
    | none => Except.error "tunnel credentials unavailable and no fallback configured"
    | some _ =>
      if ! env.fallbackSecretOK then
        Except.error "failed to get fallback credentials secret"
      else if ! env.fallbackTokenOK then
        Except.error "CLOUDFLARE_API_TOKEN not found in fallback secret"
      else Except.ok ()

/-- One iteration of the per-record deletion loop of
`cleanupRecordsWithFallback`. -/
def cleanupRecordStep (zoneID tname : String) (onlyManaged : Bool)
    (acc : CFState × List APICall) (record : DNSRecord) : CFState × List APICall :=
  if IsOwnedByCfgate record "" tname || ! onlyManaged then
    let (st', calls) := DeleteRecord acc.1 zoneID record.ID
    (st', acc.2 ++ calls)
  else acc

/-- One iteration of the per-zone loop of `cleanupRecordsWithFallback`. -/
def cleanupZoneStep (ownershipPfx tname : String) (onlyManaged : Bool)
    (acc : CFState × List APICall) (zoneConfig : ZoneConfig) :
    CFState × List APICall :=
  let zid? :=
    if zoneConfig.ID != "" then some zoneConfig.ID
    else ResolveZone acc.1 zoneConfig.Name
  match zid? with
  | none => acc
  | some zoneID =>
    match ListManagedRecords acc.1 zoneID ownershipPfx with
    | Except.error _ => acc
    | Except.ok records =>
      records.foldl (cleanupRecordStep zoneID tname onlyManaged) acc

/-- `cleanupRecordsWithFallback`: with a client in hand, list the managed
records of every configured zone and delete those owned by this tunnel — or
all listed ones when `onlyManaged` is false.  Per-zone failures are skipped;
the only error is the client being unavailable. -/
def cleanupRecordsWithFallback (env : DeleteEnv) (st : CFState)
    (sync : CloudflareDNSSync) (tunnelName : String) :
    Except String (CFState × List APICall) :=
  match getCloudflareClientWithFallback env sync with
  | Except.error e => Except.error ("failed to get Cloudflare client: " ++ e)
  | Except.ok () =>
    let ownershipPfx := effectiveOwnershipPfx sync
    let tname := if env.tunnelResolves then tunnelName else ""
    Except.ok (sync.Spec.Zones.foldl
      (cleanupZoneStep ownershipPfx tname sync.Spec.CleanupPolicy.OnlyManaged) (st, []))

/-- Outcome of `reconcileDelete`: whether the finalizer was removed, the
cleanup error (only logged and emitted as an event in the source), and the
issued calls.  The source returns success with no requeue on every path. -/
structure DeleteOutcome where
  finalizerRemoved : Bool
  cleanupError : Option String
  calls : List APICall
deriving Repr

/-- `reconcileDelete`: run cleanup when the policy allows, then remove the
finalizer even when cleanup failed. -/
def reconcileDelete (env : DeleteEnv) (st : CFState) (sync : CloudflareDNSSync)
    (tunnelName : String) (hasFinalizer : Bool) : DeleteOutcome :=
  if ! hasFinalizer then
    { finalizerRemoved := false, cleanupError := none, calls := [] }
  else
    let (cleanupErr, calls) :=
      if sync.Spec.CleanupPolicy.DeleteOnResourceRemoval then
        match cleanupRecordsWithFallback env st sync tunnelName with
        | Except.error e => (some e, [])
        | Except.ok (_, calls) => (none, calls)
      else (none, [])
    { finalizerRemoved := true, cleanupError := cleanupErr, calls := calls }

/-! ## cloudflared tunnel configuration (internal/cloudflared/configmap.go) -/

/-- `OriginRequestConfig` (the fields `NewTunnelConfig` sets; the remaining
origin options are irrelevant to ingress-rule structure). -/
structure OriginRequestCfg where
  ConnectTimeout : String
  NoTLSVerify : Bool
  HTTP2Origin : Bool
deriving DecidableEq, Repr

/-- `IngressRule` (configmap.go). -/
structure IngressRule where
  Hostname : String
  Path : String
  Service : String
  OriginRequest : Option OriginRequestCfg
deriving DecidableEq, Repr, Inhabited

/-- `TunnelConfig` (configmap.go). -/
structure TunnelConfig where
  TunnelID : String
  CredentialsFile : String
  Ingress : List IngressRule
  OriginRequest : Option OriginRequestCfg
  Protocol : String
  LogLevel : String
  NoAutoUpdate : Bool
  Metrics : String
deriving DecidableEq, Repr

/-- `OriginDefaults` fields read by `NewTunnelConfig`. -/
structure OriginDefaults where
  ConnectTimeout : String
  NoTLSVerify : Bool
  HTTP2Origin : Bool
deriving DecidableEq, Repr

/-- The `CloudflareTunnel` spec fields `NewTunnelConfig` reads; the metrics
port is the result of `getMetricsPort`. -/
structure TunnelCfgInput where
  Protocol : String
  OriginDefaults : OriginDefaults
  FallbackTarget : String
  MetricsPort : Nat
deriving DecidableEq, Repr

/-- `NewTunnelConfig` (configmap.go): defaults plus a final catch-all rule
whose service falls back to `http_status:404`. -/
def NewTunnelConfig (tunnel : TunnelCfgInput) (tunnelID : String) : TunnelConfig :=
  let config : TunnelConfig :=
    { TunnelID := tunnelID
      CredentialsFile := ""
      Ingress := []
      OriginRequest := none
      Protocol := ""
      LogLevel := ""
      NoAutoUpdate := true
      Metrics := "0.0.0.0:" ++ toString tunnel.MetricsPort }
  let config :=
    if tunnel.Protocol != "" && tunnel.Protocol != "auto" then
      { config with Protocol := tunnel.Protocol }
    else config
  let originCfg : OriginRequestCfg :=
    { ConnectTimeout := tunnel.OriginDefaults.ConnectTimeout
      NoTLSVerify := tunnel.OriginDefaults.NoTLSVerify
      HTTP2Origin := tunnel.OriginDefaults.HTTP2Origin }
  let config :=
    if tunnel.OriginDefaults.ConnectTimeout != "" || tunnel.OriginDefaults.NoTLSVerify ||
        tunnel.OriginDefaults.HTTP2Origin then
      { config with OriginRequest := some originCfg }
    else config
  let fallback :=
    if tunnel.FallbackTarget = "" then "http_status:404" else tunnel.FallbackTarget
  { config with Ingress := config.Ingress ++
      [{ Hostname := "", Path := "", Service := fallback, OriginRequest := none }] }

/-- `AddRule` (configmap.go): insert before the final catch-all when the last
rule is one, append otherwise. -/
def AddRule (c : TunnelConfig) (rule : IngressRule) : TunnelConfig :=
  match c.Ingress.getLast? with
  | none => { c with Ingress := c.Ingress ++ [rule] }
  | some catchAll =>
    if catchAll.Hostname == "" && catchAll.Path == "" then
      { c with Ingress := c.Ingress.dropLast ++ [rule, catchAll] }
    else
      { c with Ingress := c.Ingress ++ [rule] }

/-- `SetCatchAll` (configmap.go): drop an existing final catch-all, then
append the new one. -/
def SetCatchAll (c : TunnelConfig) (service : String) : TunnelConfig :=
  let ingress :=
    match c.Ingress.getLast? with
    | none => c.Ingress
    | some lastRule =>
      if lastRule.Hostname == "" && lastRule.Path == "" then c.Ingress.dropLast
      else c.Ingress
  { c with Ingress := ingress ++
      [{ Hostname := "", Path := "", Service := service, OriginRequest := none }] }

/-- `Validate` (configmap.go): returns `none` for a valid configuration,
`some message` otherwise. -/
def Validate (c : TunnelConfig) : Option String :=
  if c.TunnelID == "" then some "tunnel ID is required"
  else
    match c.Ingress.getLast? with
    | none => some "at least one ingress rule is required"
    | some lastRule =>
      if lastRule.Hostname != "" || lastRule.Path != "" then
        some "last ingress rule must be a catch-all (no hostname or path)"
      else
        match c.Ingress.findIdx? (fun rule => rule.Service == "") with
        | some i => some ("ingress rule " ++ toString i ++ ": service is required")
        | none => none

/-! ## Credential cache (internal/cloudflare/cache.go) -/

/-- The secret identity fields `cacheKey` reads. -/
structure SecretModel where
  UID : String
  ResourceVersion : String
deriving DecidableEq, Repr

/-- `cacheKey` (cache.go): UID and ResourceVersion joined by a colon. -/
def cacheKey (secret : SecretModel) : String :=
  secret.UID ++ ":" ++ secret.ResourceVersion

/-- `cacheEntry` (cache.go); time is modelled as a natural-number instant. -/
structure CacheEntry (α : Type) where
  client : α
  expiresAt : Nat
deriving DecidableEq, Repr

/-- Go map lookup over an association list (later `Set`s shadow older keys). -/
def mapLookup {α : Type} (entries : List (String × CacheEntry α)) (key : String) :
    Option (CacheEntry α) :=
  (entries.find? (fun p => p.1 == key)).map (fun p => p.2)

/-- Go map assignment. -/
def mapInsert {α : Type} (entries : List (String × CacheEntry α)) (key : String)
    (entry : CacheEntry α) : List (String × CacheEntry α) :=
  (key, entry) :: entries.filter (fun p => p.1 != key)

/-- Go map deletion. -/
def mapErase {α : Type} (entries : List (String × CacheEntry α)) (key : String) :
    List (String × CacheEntry α) :=
  entries.filter (fun p => p.1 != key)

/-- `CredentialCache` (cache.go); the client type is a parameter. -/
structure CredentialCache (α : Type) where
  entries : List (String × CacheEntry α)
  ttl : Nat
deriving DecidableEq, Repr

/-- `NewCredentialCache` (cache.go): non-positive TTLs fall back to the
30-second default. -/
def NewCredentialCache (α : Type) (ttl : Int) : CredentialCache α :=
  { entries := [], ttl := if ttl ≤ 0 then 30 else ttl.toNat }

/-- `Get` (cache.go): a hit only when present and not expired; expired
entries are removed lazily. -/
def CredentialCache.Get {α : Type} (c : CredentialCache α) (now : Nat)
    (secret : SecretModel) : Option α × CredentialCache α :=
  let key := cacheKey secret
  match mapLookup c.entries key with
  | none => (none, c)
  | some entry =>
    if now > entry.expiresAt then
      (none, { c with entries := mapErase c.entries key })
    else (some entry.client, c)

/-- `Set` (cache.go): store under the secret's key, expiring `ttl` from now. -/
def CredentialCache.Set {α : Type} (c : CredentialCache α) (now : Nat)
    (secret : SecretModel) (client : α) : CredentialCache α :=
  let entry : CacheEntry α := { client := client, expiresAt := now + c.ttl }
  { c with entries := mapInsert c.entries (cacheKey secret) entry }

/-- `GetOrCreate` (cache.go).  The returned flag records whether `createFn`
was invoked. -/
def CredentialCache.GetOrCreate {α : Type} (c : CredentialCache α) (now : Nat)
    (secret : SecretModel) (createFn : Except String α) :
    Except String (α × CredentialCache α × Bool) :=
  match CredentialCache.Get c now secret with
  | (some client, c') => Except.ok (client, c', false)
  | (none, c') =>
    match createFn with
    | Except.error e => Except.error e
    | Except.ok client =>
      Except.ok (client, CredentialCache.Set c' now secret client, true)

/-! ## HTTPRoute reconciler (internal/controller/httproute_controller.go) -/

/-- Modelled from the spec: `GatewayControllerName`, this operator's fixed
controller name, is declared in the gateway controller source (not under
`src/`); only its identity matters here. -/
def GatewayControllerName : String := "cfgate.io/gateway-controller"

/-- Gateway API `ParentReference` (fields the reconciler reads). -/
structure ParentReference where
  Group : Option String
  Kind : Option String
  Namespace' : Option String
  Name : String
  SectionName : Option String
deriving DecidableEq, Repr

/-- A `metav1.Condition` (fields the reconciler sets; `Status` is `true` for
`ConditionTrue`). -/
structure ConditionModel where
  Type' : String
  Status : Bool
  Reason : String
  Message : String
deriving DecidableEq, Repr

/-- Gateway API `RouteParentStatus`. -/
structure RouteParentStatus where
  ParentRef : ParentReference
  ControllerName : String
  Conditions : List ConditionModel
deriving DecidableEq, Repr

/-- The `HTTPRoute` fields the reconciler reads and writes. -/
structure HTTPRouteModel where
  Namespace' : String
  ParentRefs : List ParentReference
  StatusParents : List RouteParentStatus
deriving DecidableEq, Repr

/-- The `Accepted=True` condition stamped by `Reconcile`. -/
def acceptedCondTrue : ConditionModel :=
  { Type' := "Accepted", Status := true, Reason := "Accepted",
    Message := "Route accepted by Gateway" }

/-- The `ResolvedRefs=True` condition stamped by `Reconcile`. -/
def resolvedRefsCondTrue : ConditionModel :=
  { Type' := "ResolvedRefs", Status := true, Reason := "ResolvedRefs",
    Message := "All references resolved" }

/-- The per-parent status built in step 2 of `Reconcile`.  The
cluster-dependent `validateParentRef` is abstracted as `validate`, returning
`(accepted, reason, error message)`. -/
def buildRouteParentStatus (routeNS : String)
    (validate : ParentReference → Bool × String × String)
    (parentRef : ParentReference) : RouteParentStatus :=
  let v := validate parentRef
  let parentNS := parentRef.Namespace'.getD routeNS
  let base : RouteParentStatus :=
    { ParentRef :=
        { Group := parentRef.Group, Kind := parentRef.Kind,
          Namespace' := some parentNS, Name := parentRef.Name,
          SectionName := parentRef.SectionName }
      ControllerName := GatewayControllerName
      Conditions := [acceptedCondTrue, resolvedRefsCondTrue] }
  if v.1 then base
  else
    { base with Conditions :=
        [{ acceptedCondTrue with Status := false, Reason := v.2.1, Message := v.2.2 },
         resolvedRefsCondTrue] }

/-- Steps 2–4 of `Reconcile` (httproute_controller.go): build one parent
status per parent reference, degrade `ResolvedRefs` on a backend-resolution
error, and assign the result to `route.Status.Parents`, replacing whatever
was there. -/
def reconcileRouteStatusParents (route : HTTPRouteModel)
    (validate : ParentReference → Bool × String × String)
    (backendsErr : Option String) : List RouteParentStatus :=
  let parentStatuses := route.ParentRefs.map (buildRouteParentStatus route.Namespace' validate)
  match backendsErr with
  | none => parentStatuses
  | some e =>
    let backendCond : ConditionModel :=
      { Type' := "ResolvedRefs", Status := false, Reason := "BackendNotFound",
        Message := e }
    parentStatuses.map (fun ps =>
      { ps with Conditions := ps.Conditions.set 1 backendCond })

/-- Step 4 of `Reconcile`: `route.Status.Parents = parentStatuses`. -/
def reconcileUpdatedRoute (route : HTTPRouteModel)
    (validate : ParentReference → Bool × String × String)
    (backendsErr : Option String) : HTTPRouteModel :=
  { route with StatusParents := reconcileRouteStatusParents route validate backendsErr }

/-! ## Deduplication: spec-side definition and proofs (C8) -/

/-- Specification-side deduplication: keep each hostname's first occurrence,
in order.  `collectHostnames` is compared against this definition. -/
def firstSeenSpec : List String → List String
  | [] => []
  | h :: t => h :: firstSeenSpec (t.filter (fun x => x != h))
termination_by l => l.length
decreasing_by
  simp only [List.length_cons]
  exact Nat.lt_succ_of_le (List.length_filter_le _ t)

theorem firstSeenSpec_subset (l : List String) : ∀ x ∈ firstSeenSpec l, x ∈ l := by
  induction l using firstSeenSpec.induct with
  | case1 => simp [firstSeenSpec]
  | case2 h t ih =>
    intro x hx
    simp only [firstSeenSpec, List.mem_cons] at hx
    rcases hx with rfl | hx
    · simp
    · exact List.mem_cons_of_mem _ (List.mem_of_mem_filter (ih x hx))

theorem firstSeenSpec_nodup (l : List String) : (firstSeenSpec l).Nodup := by
  induction l using firstSeenSpec.induct with
  | case1 => simp [firstSeenSpec]
  | case2 h t ih =>
    simp only [firstSeenSpec, List.nodup_cons]
    refine ⟨fun hmem => ?_, ih⟩
    have := List.of_mem_filter (firstSeenSpec_subset _ _ hmem)
    simp at this

theorem dedupFirstSeen_eq_firstSeenSpec (l : List String) :
    ∀ seen : List String,
      dedupFirstSeen seen l =
        firstSeenSpec (l.filter (fun x => ! decide (x ∈ seen))) := by
  induction l with
  | nil => intro seen; simp [dedupFirstSeen, firstSeenSpec]
  | cons h t ih =>
    intro seen
    by_cases hmem : h ∈ seen
    · have hp : (fun x => ! decide (x ∈ seen)) h = false := by simp [hmem]
      simp only [dedupFirstSeen, if_pos hmem, List.filter_cons, hp, ih seen]
      simp
    · have hp : (fun x => ! decide (x ∈ seen)) h = true := by simp [hmem]
      have hfilters :
          (t.filter (fun x => ! decide (x ∈ seen))).filter (fun x => x != h) =
            t.filter (fun x => ! decide (x ∈ h :: seen)) := by
        rw [List.filter_filter]
        refine List.filter_congr ?_
        intro x _
        by_cases hx : x = h <;> by_cases hs : x ∈ seen <;> simp [hx, hs]
      simp only [dedupFirstSeen, if_neg hmem, ih (h :: seen)]
      have hfc : (h :: t).filter (fun x => ! decide (x ∈ seen)) =
          h :: t.filter (fun x => ! decide (x ∈ seen)) := by
        simp [List.filter_cons, hmem]
      rw [hfc]
      simp only [firstSeenSpec]
      rw [hfilters]

/-- C8: `collectHostnames` returns the explicit hostnames in declaration
order followed by the gateway-route-derived hostnames, deduplicated keeping
each hostname's first occurrence, and the result has no duplicates. -/
theorem collectHostnames_first_seen_dedup (sync : CloudflareDNSSync)
    (routeHostnames : List String) :
    collectHostnames sync routeHostnames =
      firstSeenSpec (sync.Spec.Source.Explicit.map (fun explicit => explicit.Hostname) ++
        (if sync.Spec.Source.GatewayRoutes.Enabled then routeHostnames else [])) ∧
    (collectHostnames sync routeHostnames).Nodup := by
  have key := dedupFirstSeen_eq_firstSeenSpec
    (sync.Spec.Source.Explicit.map (fun explicit => explicit.Hostname) ++
      (if sync.Spec.Source.GatewayRoutes.Enabled then routeHostnames else [])) []
  have hfilter :
      (sync.Spec.Source.Explicit.map (fun explicit => explicit.Hostname) ++
          (if sync.Spec.Source.GatewayRoutes.Enabled then routeHostnames else [])).filter
        (fun x => ! decide (x ∈ ([] : List String))) =
      sync.Spec.Source.Explicit.map (fun explicit => explicit.Hostname) ++
        (if sync.Spec.Source.GatewayRoutes.Enabled then routeHostnames else []) := by
    simp
  constructor
  · show dedupFirstSeen [] _ = _
    rw [key, hfilter]
  · show (dedupFirstSeen [] _).Nodup
    rw [key, hfilter]
    exact firstSeenSpec_nodup _

/-! ## Catch-all invariant of the tunnel configuration (C6) -/

/-- The last ingress rule exists and matches no hostname and no path. -/
def lastIsCatchAll (c : TunnelConfig) : Bool :=
  match c.Ingress.getLast? with
  | none => false
  | some lastRule => lastRule.Hostname == "" && lastRule.Path == ""

theorem newTunnelConfig_ingress (tunnel : TunnelCfgInput) (tunnelID : String) :
    (NewTunnelConfig tunnel tunnelID).Ingress =
      [{ Hostname := "", Path := "",
         Service := if tunnel.FallbackTarget = "" then "http_status:404"
           else tunnel.FallbackTarget,
         OriginRequest := none }] := by
  simp only [NewTunnelConfig]
  split <;> split <;> rfl

/-- C6: `NewTunnelConfig` ends in a catch-all rule whose service defaults to
`http_status:404`; `AddRule` and `SetCatchAll` keep the last rule a
catch-all; and `Validate` returns `nil` only when the last rule is a
catch-all and every rule has a non-empty service. -/
theorem tunnelConfig_catch_all :
    (∀ (tunnel : TunnelCfgInput) (tunnelID : String),
       lastIsCatchAll (NewTunnelConfig tunnel tunnelID) = true ∧
       (tunnel.FallbackTarget = "" →
         (NewTunnelConfig tunnel tunnelID).Ingress.getLast? =
           some { Hostname := "", Path := "", Service := "http_status:404",
                  OriginRequest := none })) ∧
    (∀ (c : TunnelConfig) (rule : IngressRule),
       lastIsCatchAll c = true → lastIsCatchAll (AddRule c rule) = true) ∧
    (∀ (c : TunnelConfig) (service : String),
       lastIsCatchAll (SetCatchAll c service) = true) ∧
    (∀ c : TunnelConfig, Validate c = none →
       lastIsCatchAll c = true ∧ ∀ rule ∈ c.Ingress, rule.Service ≠ "") := by
  refine ⟨?_, ?_, ?_, ?_⟩
  · intro tunnel tunnelID
    constructor
    · simp [lastIsCatchAll, newTunnelConfig_ingress]
    · intro hfb
      rw [newTunnelConfig_ingress]
      simp [hfb]
  · intro c rule h
    unfold lastIsCatchAll at h
    cases hget : c.Ingress.getLast? with
    | none => rw [hget] at h; exact absurd h (by simp)
    | some catchAll =>
      rw [hget] at h
      have hca : (catchAll.Hostname == "" && catchAll.Path == "") = true := h
      have hAdd : AddRule c rule =
          if (catchAll.Hostname == "" && catchAll.Path == "") = true then
            { c with Ingress := c.Ingress.dropLast ++ [rule, catchAll] }
          else { c with Ingress := c.Ingress ++ [rule] } := by
        unfold AddRule
        rw [hget]
      rw [hAdd, if_pos hca]
      simp [lastIsCatchAll, List.getLast?_append, hca]
  · intro c service
    unfold SetCatchAll lastIsCatchAll
    simp [List.getLast?_append]
  · intro c h
    unfold Validate at h
    by_cases h1 : (c.TunnelID == "") = true
    · rw [if_pos h1] at h; cases h
    · rw [if_neg h1] at h
      cases hget : c.Ingress.getLast? with
      | none => rw [hget] at h; exact Option.noConfusion h
      | some lastRule =>
        rw [hget] at h
        have h' : (if (lastRule.Hostname != "" || lastRule.Path != "") = true then
              some "last ingress rule must be a catch-all (no hostname or path)"
            else
              match c.Ingress.findIdx? (fun rule => rule.Service == "") with
              | some i => some ("ingress rule " ++ toString i ++ ": service is required")
              | none => none) = none := h
        by_cases h2 : (lastRule.Hostname != "" || lastRule.Path != "") = true
        · rw [if_pos h2] at h'; cases h'
        · rw [if_neg h2] at h'
          cases hidx : c.Ingress.findIdx? (fun rule => rule.Service == "") with
          | some i => rw [hidx] at h'; exact Option.noConfusion h'
          | none =>
            have h2' : lastRule.Hostname = "" ∧ lastRule.Path = "" := by
              simpa [not_or] using h2
            refine ⟨?_, ?_⟩
            · simp [lastIsCatchAll, hget, h2'.1, h2'.2]
            · intro rule hrule
              have hall := List.findIdx?_eq_none_iff.mp hidx
              have := hall rule hrule
              simpa using this

/-- Witness for C6: adding a rule to a freshly built configuration keeps the
last rule a catch-all. -/
theorem tunnelConfig_catch_all_witness :
    lastIsCatchAll (AddRule
      (NewTunnelConfig
        { Protocol := "auto",
          OriginDefaults := { ConnectTimeout := "", NoTLSVerify := false, HTTP2Origin := false },
          FallbackTarget := "", MetricsPort := 2000 } "tid")
      { Hostname := "app.example.com", Path := "", Service := "http://svc:80",
        OriginRequest := none }) = true :=
  tunnelConfig_catch_all.2.1 _ _ (by decide)

/-! ## Credential cache behaviour (C7) -/

theorem append_sep_inj (sep : Char) :
    ∀ (l1 l2 r1 r2 : List Char), sep ∉ l1 → sep ∉ l2 →
      l1 ++ sep :: r1 = l2 ++ sep :: r2 → l1 = l2 ∧ r1 = r2 := by
  intro l1
  induction l1 with
  | nil =>
    intro l2 r1 r2 _ h2 heq
    cases l2 with
    | nil => simpa using heq
    | cons d l2' =>
      simp only [List.nil_append, List.cons_append, List.cons.injEq] at heq
      have hd : sep = d := heq.1
      simp [hd] at h2
  | cons c l1' ih =>
    intro l2 r1 r2 h1 h2 heq
    cases l2 with
    | nil =>
      simp only [List.nil_append, List.cons_append, List.cons.injEq] at heq
      have hc : c = sep := heq.1
      simp [hc.symm] at h1
    | cons d l2' =>
      simp only [List.cons_append, List.cons.injEq] at heq
      obtain ⟨hcd, heq'⟩ := heq
      simp only [List.mem_cons, not_or] at h1 h2
      obtain ⟨hl, hr⟩ := ih l2' r1 r2 h1.2 h2.2 heq'
      exact ⟨by rw [hcd, hl], hr⟩

theorem cacheKey_inj (s1 s2 : SecretModel)
    (h1 : ':' ∉ s1.UID.data) (h2 : ':' ∉ s2.UID.data)
    (h : cacheKey s1 = cacheKey s2) : s1 = s2 := by
  unfold cacheKey at h
  have hdata : s1.UID.data ++ ':' :: s1.ResourceVersion.data =
      s2.UID.data ++ ':' :: s2.ResourceVersion.data := by
    have hc := congrArg String.data h
    simpa [String.data_append, List.append_assoc,
      show (":" : String).data = [':'] from rfl] using hc
  obtain ⟨hu, hr⟩ := append_sep_inj ':' _ _ _ _ h1 h2 hdata
  cases s1 with
  | mk u1 v1 =>
    cases s2 with
    | mk u2 v2 =>
      simp only at hu hr
      simp only [SecretModel.mk.injEq]
      exact ⟨String.ext hu, String.ext hr⟩

/-- C7 (amended): `GetOrCreate` returns the cached client without invoking
`build` exactly when an unexpired entry exists under the secret's key;
otherwise it invokes `build`, stores the result under that key with expiry
TTL from now, and returns it.  Distinct secrets get distinct keys provided
their UIDs contain no colon (the key is `UID ++ ":" ++ ResourceVersion`). -/
theorem credentialCache_getOrCreate (α : Type) :
    (∀ (c : CredentialCache α) (now : Nat) (secret : SecretModel)
       (createFn : Except String α) (entry : CacheEntry α),
       mapLookup c.entries (cacheKey secret) = some entry →
       ¬ now > entry.expiresAt →
       CredentialCache.GetOrCreate c now secret createFn =
         Except.ok (entry.client, c, false)) ∧
    (∀ (c : CredentialCache α) (now : Nat) (secret : SecretModel) (client : α),
       mapLookup c.entries (cacheKey secret) = none →
       CredentialCache.GetOrCreate c now secret (Except.ok client) =
         Except.ok (client, CredentialCache.Set c now secret client, true)) ∧
    (∀ (c : CredentialCache α) (now : Nat) (secret : SecretModel) (client : α)
       (entry : CacheEntry α),
       mapLookup c.entries (cacheKey secret) = some entry →
       now > entry.expiresAt →
       CredentialCache.GetOrCreate c now secret (Except.ok client) =
         Except.ok (client,
           CredentialCache.Set { c with entries := mapErase c.entries (cacheKey secret) }
             now secret client, true)) ∧
    (∀ s1 s2 : SecretModel, ':' ∉ s1.UID.data → ':' ∉ s2.UID.data →
       s1 ≠ s2 → cacheKey s1 ≠ cacheKey s2) := by
  refine ⟨?_, ?_, ?_, ?_⟩
  · intro c now secret createFn entry hlk hexp
    have hGet : CredentialCache.Get c now secret =
        (if now > entry.expiresAt then
          (none, { c with entries := mapErase c.entries (cacheKey secret) })
         else (some entry.client, c)) := by
      simp only [CredentialCache.Get]
      rw [hlk]
    rw [if_neg hexp] at hGet
    unfold CredentialCache.GetOrCreate
    rw [hGet]
  · intro c now secret client hlk
    have hGet : CredentialCache.Get c now secret = (none, c) := by
      simp only [CredentialCache.Get]
      rw [hlk]
    unfold CredentialCache.GetOrCreate
    rw [hGet]
  · intro c now secret client entry hlk hexp
    have hGet : CredentialCache.Get c now secret =
        (if now > entry.expiresAt then
          (none, { c with entries := mapErase c.entries (cacheKey secret) })
         else (some entry.client, c)) := by
      simp only [CredentialCache.Get]
      rw [hlk]
    rw [if_pos hexp] at hGet
    unfold CredentialCache.GetOrCreate
    rw [hGet]
  · intro s1 s2 h1 h2 hne hkey
    exact hne (cacheKey_inj s1 s2 h1 h2 hkey)

/-- Witness for C7: a miss on the empty cache builds the client and stores
it under the secret's key. -/
theorem credentialCache_getOrCreate_witness :
    CredentialCache.GetOrCreate (NewCredentialCache Nat 30) 0
        { UID := "uid1", ResourceVersion := "rv1" } (Except.ok 7) =
      Except.ok (7,
        CredentialCache.Set (NewCredentialCache Nat 30) 0
          { UID := "uid1", ResourceVersion := "rv1" } 7, true) :=
  (credentialCache_getOrCreate Nat).2.1 _ 0 _ 7 rfl

/-- Counterexample for C7 as stated: two secrets that differ in UID share a
cache entry, because `cacheKey` joins UID and ResourceVersion with a colon
and the UID may itself contain a colon. -/
theorem credentialCache_key_collision :
    ({ UID := "a:b", ResourceVersion := "c" } : SecretModel) ≠
      { UID := "a", ResourceVersion := "b:c" } ∧
    cacheKey { UID := "a:b", ResourceVersion := "c" } =
      cacheKey { UID := "a", ResourceVersion := "b:c" } ∧
    (CredentialCache.Get
      (CredentialCache.Set (NewCredentialCache Nat 30) 0
        { UID := "a:b", ResourceVersion := "c" } 42) 0
      { UID := "a", ResourceVersion := "b:c" }).1 = some 42 :=
  ⟨by decide, by decide, by decide⟩

/-! ## HTTPRoute status stamping (C4) -/

theorem buildRouteParentStatus_controllerName (ns : String)
    (validate : ParentReference → Bool × String × String) (ref : ParentReference) :
    (buildRouteParentStatus ns validate ref).ControllerName = GatewayControllerName := by
  simp only [buildRouteParentStatus]
  split <;> rfl

theorem buildRouteParentStatus_conditions_shape (ns : String)
    (validate : ParentReference → Bool × String × String) (ref : ParentReference) :
    ∃ c0, (buildRouteParentStatus ns validate ref).Conditions = [c0, resolvedRefsCondTrue] ∧
      c0.Type' = "Accepted" := by
  simp only [buildRouteParentStatus]
  split
  · exact ⟨acceptedCondTrue, rfl, rfl⟩
  · exact ⟨_, rfl, rfl⟩

/-- C4 (amended): reconciling an HTTPRoute stamps exactly one
`RouteParentStatus` per parent reference, each carrying this operator's
controller name with `Accepted` and `ResolvedRefs` conditions — but the
computed list replaces `status.Parents` wholesale and does not depend on the
previously stored entries, so foreign controllers' entries are dropped
rather than preserved. -/
theorem httproute_status_stamping :
    (∀ (route : HTTPRouteModel) (validate : ParentReference → Bool × String × String)
       (backendsErr : Option String),
       (reconcileRouteStatusParents route validate backendsErr).length =
         route.ParentRefs.length ∧
       ∀ ps ∈ reconcileRouteStatusParents route validate backendsErr,
         ps.ControllerName = GatewayControllerName ∧
         ps.Conditions.map (fun cond => cond.Type') = ["Accepted", "ResolvedRefs"]) ∧
    (∀ (r1 r2 : HTTPRouteModel) (validate : ParentReference → Bool × String × String)
       (backendsErr : Option String),
       r1.Namespace' = r2.Namespace' → r1.ParentRefs = r2.ParentRefs →
       reconcileRouteStatusParents r1 validate backendsErr =
         reconcileRouteStatusParents r2 validate backendsErr) := by
  constructor
  · intro route validate backendsErr
    constructor
    · unfold reconcileRouteStatusParents
      cases backendsErr <;> simp
    · intro ps hps
      unfold reconcileRouteStatusParents at hps
      cases backendsErr with
      | none =>
        simp only [List.mem_map] at hps
        obtain ⟨ref, _, rfl⟩ := hps
        obtain ⟨c0, hshape, htype⟩ :=
          buildRouteParentStatus_conditions_shape route.Namespace' validate ref
        refine ⟨buildRouteParentStatus_controllerName _ _ _, ?_⟩
        rw [hshape]
        simp [htype, resolvedRefsCondTrue]
      | some e =>
        simp only [List.mem_map] at hps
        obtain ⟨ps0, hps0, rfl⟩ := hps
        obtain ⟨ref, _, rfl⟩ := hps0
        obtain ⟨c0, hshape, htype⟩ :=
          buildRouteParentStatus_conditions_shape route.Namespace' validate ref
        constructor
        · simpa using buildRouteParentStatus_controllerName route.Namespace' validate ref
        · simp only [hshape]
          rw [show ([c0, resolvedRefsCondTrue].set 1
            { Type' := "ResolvedRefs", Status := false, Reason := "BackendNotFound",
              Message := e }) =
            [c0, { Type' := "ResolvedRefs", Status := false, Reason := "BackendNotFound",
                   Message := e }] from rfl]
          rw [List.map_cons, htype]
          rfl
  · intro r1 r2 validate backendsErr h1 h2
    unfold reconcileRouteStatusParents
    rw [h1, h2]

/-- A status entry attributed to a foreign controller, used to exhibit that
`Reconcile` drops such entries. -/
def foreignParentStatus : RouteParentStatus :=
  { ParentRef :=
      { Group := none, Kind := none, Namespace' := some "ns", Name := "gw",
        SectionName := none }
    ControllerName := "example.com/other-controller"
    Conditions := [] }

/-- Counterexample for C4 as stated: a pre-existing foreign controller's
`RouteParentStatus` entry is not preserved by the reconciliation — the new
status contains only this operator's entries. -/
theorem httproute_foreign_status_dropped :
    foreignParentStatus ∈
      (HTTPRouteModel.mk "default"
        [{ Group := none, Kind := none, Namespace' := none, Name := "gw",
           SectionName := none }]
        [foreignParentStatus]).StatusParents ∧
    foreignParentStatus.ControllerName ≠ GatewayControllerName ∧
    foreignParentStatus ∉
      (reconcileUpdatedRoute
        (HTTPRouteModel.mk "default"
          [{ Group := none, Kind := none, Namespace' := none, Name := "gw",
             SectionName := none }]
          [foreignParentStatus])
        (fun _ => (true, "", "")) none).StatusParents :=
  ⟨by decide, by decide, by decide⟩

/-- Witness for C4: the stamped status is the same whether or not a foreign
entry was present in the previous status. -/
theorem httproute_status_stamping_witness :
    reconcileRouteStatusParents
        (HTTPRouteModel.mk "default"
          [{ Group := none, Kind := none, Namespace' := none, Name := "gw",
             SectionName := none }]
          [foreignParentStatus])
        (fun _ => (true, "", "")) none =
      reconcileRouteStatusParents
        (HTTPRouteModel.mk "default"
          [{ Group := none, Kind := none, Namespace' := none, Name := "gw",
             SectionName := none }]
          [])
        (fun _ => (true, "", "")) none :=
  httproute_status_stamping.2 _ _ (fun _ => (true, "", "")) none rfl rfl

/-! ## Concrete fixtures used by witnesses and counterexamples -/

/-- A foreign CNAME record: its comment lacks the ownership sentinel. -/
def sampleForeignRecord : DNSRecord :=
  { ID := "id1", Type' := "CNAME", Name := "app.example.com",
    Content := "origin.example.net", TTL := 1, Proxied := false, Comment := "" }

/-- A foreign TXT record parked at the ownership-prefix name, with a comment
lacking the sentinel. -/
def sampleForeignTXT : DNSRecord :=
  { ID := "id7", Type' := "TXT", Name := "_cfgate.app.example.com",
    Content := "foreign data", TTL := 1, Proxied := false, Comment := "" }

/-- An external state with one zone `z1` holding the foreign CNAME. -/
def sampleState : CFState :=
  { zones := fun _ => { records := [sampleForeignRecord], nextID := 0 }
    listFail := fun _ => false
    zoneByName := fun _ => none }

/-- An external state with one zone `z1` holding the foreign prefix-named
TXT record. -/
def sampleStateTXT : CFState :=
  { zones := fun _ => { records := [sampleForeignTXT], nextID := 0 }
    listFail := fun _ => false
    zoneByName := fun _ => none }

/-- A minimal `CloudflareDNSSync` with one zone and TXT ownership disabled. -/
def sampleSync : CloudflareDNSSync :=
  { Spec :=
      { Zones := [{ Name := "example.com", ID := "z1" }]
        Source :=
          { GatewayRoutes := { Enabled := false, AnnotationFilter := "" }
            Explicit := [] }
        Defaults := { Proxied := true, TTL := "auto" }
        Ownership := { TXTRecord := { Enabled := false, Pfx := "" } }
        CleanupPolicy :=
          { DeleteOnRouteRemoval := true, DeleteOnResourceRemoval := true,
            OnlyManaged := true }
        FallbackCredentialsRef := none }
    Status := { SyncedRecords := 0, PendingRecords := 0, FailedRecords := 0, Records := [] } }

/-- The tunnel fixture. -/
def sampleTunnel : CloudflareTunnel :=
  { Name := "t1", TunnelDomain := "abc.cfargotunnel.com" }

/-! ## Non-interference of SyncRecord with foreign records (C2) -/

/-- C2: an existing record found by `SyncRecord` whose comment lacks the
sentinel is returned unchanged with `modified = false` and no create or
update call, and the reconciler's status entry for that hostname is `Synced`
with the record's existing content as target. -/
theorem syncRecord_foreign_untouched :
    (∀ (st : CFState) (zoneID : String) (desired existing : DNSRecord),
       FindRecordByName st zoneID desired.Name desired.Type' =
         Except.ok (some existing) →
       strContains existing.Comment "managed by cfgate" = false →
       SyncRecord st zoneID desired = Except.ok (st, existing, false, [])) ∧
    (∀ (st : CFState) (sync : CloudflareDNSSync) (tunnel : CloudflareTunnel)
       (zones : List (String × String)) (ownershipPfx hostname zoneID : String)
       (existing : DNSRecord),
       lookupZoneID zones (ExtractZoneFromHostname hostname) = some zoneID →
       FindRecordByName st zoneID hostname "CNAME" = Except.ok (some existing) →
       strContains existing.Comment "managed by cfgate" = false →
       (syncOneHostname st sync tunnel zones ownershipPfx hostname).2.1 =
         { Hostname := hostname, Type' := existing.Type', Target := existing.Content,
           Proxied := existing.Proxied, Status := "Synced", RecordID := existing.ID,
           Error := "" }) := by
  have hmain : ∀ (st : CFState) (zoneID : String) (desired existing : DNSRecord),
      FindRecordByName st zoneID desired.Name desired.Type' =
        Except.ok (some existing) →
      strContains existing.Comment "managed by cfgate" = false →
      SyncRecord st zoneID desired = Except.ok (st, existing, false, []) := by
    intro st zoneID desired existing hfind howned
    have hnotowned : IsOwnedByCfgate existing "" "" = false := by
      simp [IsOwnedByCfgate, howned]
    simp only [SyncRecord, hfind, hnotowned]
    simp
  refine ⟨hmain, ?_⟩
  intro st sync tunnel zones ownershipPfx hostname zoneID existing hzone hfind howned
  have hsync := hmain st zoneID
    (BuildCNAMERecord hostname tunnel.TunnelDomain sync.Spec.Defaults.Proxied
      ("managed by cfgate, tunnel=" ++ tunnel.Name)) existing hfind howned
  simp only [syncOneHostname, hzone, hsync]

/-- Witness for C2 at a concrete foreign record: the record is reported
`Synced` with its existing content, untouched. -/
theorem syncRecord_foreign_untouched_witness :
    (syncOneHostname sampleState sampleSync sampleTunnel [("example.com", "z1")]
        "_cfgate" "app.example.com").2.1 =
      { Hostname := "app.example.com", Type' := sampleForeignRecord.Type',
        Target := sampleForeignRecord.Content,
        Proxied := sampleForeignRecord.Proxied, Status := "Synced",
        RecordID := sampleForeignRecord.ID, Error := "" } :=
  syncRecord_foreign_untouched.2 sampleState sampleSync sampleTunnel
    [("example.com", "z1")] "_cfgate" "app.example.com" "z1" sampleForeignRecord
    (by decide) rfl (by decide)

/-! ## Explicit hostname elements (C3) -/

/-- An explicit hostname element carrying its own target template and
proxied/TTL overrides, which differ from the tunnel domain and the
resource-wide defaults. -/
def explicitElement : ExplicitHostname :=
  { Hostname := "a.example.com", Target := "other.example.net",
    Proxied := false, TTL := "auto" }

/-- `sampleSync` with `explicitElement` as the only hostname source and
record defaults `proxied = true`. -/
def explicitSync : CloudflareDNSSync :=
  { sampleSync with Spec :=
      { sampleSync.Spec with Source :=
          { GatewayRoutes := { Enabled := false, AnnotationFilter := "" }
            Explicit := [explicitElement] } } }

/-- An external state with no records. -/
def emptyState : CFState :=
  { zones := fun _ => { records := [], nextID := 0 }
    listFail := fun _ => false
    zoneByName := fun _ => none }

/-- C3: evaluating the reconciler on an explicit hostname element shows its
`Target`, `Proxied` and `TTL` fields are ignored — the created record's
content is the tunnel domain and its proxied flag is the resource-wide
default, not the element's own template and overrides. -/
theorem explicit_element_fields_ignored :
    collectHostnames explicitSync [] = ["a.example.com"] ∧
    (syncRecords emptyState explicitSync sampleTunnel
        (collectHostnames explicitSync []) [("example.com", "z1")]).2.2 =
      [APICall.create "z1"
        (BuildCNAMERecord "a.example.com" sampleTunnel.TunnelDomain true
          "managed by cfgate, tunnel=t1")] ∧
    (BuildCNAMERecord "a.example.com" sampleTunnel.TunnelDomain true
        "managed by cfgate, tunnel=t1").Content ≠ explicitElement.Target ∧
    (BuildCNAMERecord "a.example.com" sampleTunnel.TunnelDomain true
        "managed by cfgate, tunnel=t1").Proxied ≠ explicitElement.Proxied :=
  ⟨by decide, by decide, by decide, by decide⟩

/-! ## Deletion path with a missing tunnel and no fallback (C5) -/

/-- C5 (amended): when the tunnel is missing and no fallback credentials are
configured, the deletion-path cleanup fails — but `reconcileDelete` still
removes the finalizer and reports success with no requeue, so cleanup is not
retried. -/
theorem reconcileDelete_removes_finalizer_despite_cleanup_failure :
    ∀ (env : DeleteEnv) (st : CFState) (sync : CloudflareDNSSync)
      (tunnelName : String),
      env.tunnelResolves = false →
      sync.Spec.FallbackCredentialsRef = none →
      sync.Spec.CleanupPolicy.DeleteOnResourceRemoval = true →
      reconcileDelete env st sync tunnelName true =
        { finalizerRemoved := true,
          cleanupError := some ("failed to get Cloudflare client: " ++
            "tunnel credentials unavailable and no fallback configured"),
          calls := [] } := by
  intro env st sync tunnelName htr hfb hpol
  have hclient : getCloudflareClientWithFallback env sync =
      Except.error "tunnel credentials unavailable and no fallback configured" := by
    unfold getCloudflareClientWithFallback
    rw [htr, hfb]
    simp
  have hcleanup : cleanupRecordsWithFallback env st sync tunnelName =
      Except.error ("failed to get Cloudflare client: " ++
        "tunnel credentials unavailable and no fallback configured") := by
    unfold cleanupRecordsWithFallback
    rw [hclient]
  simp [reconcileDelete, hpol, hcleanup]

/-- Witness for C5's amended statement at a concrete resource. -/
theorem reconcileDelete_removes_finalizer_despite_cleanup_failure_witness :
    reconcileDelete
        { tunnelResolves := false, tunnelClientOK := false,
          fallbackSecretOK := false, fallbackTokenOK := false }
        sampleState sampleSync "t1" true =
      { finalizerRemoved := true,
        cleanupError := some ("failed to get Cloudflare client: " ++
          "tunnel credentials unavailable and no fallback configured"),
        calls := [] } :=
  reconcileDelete_removes_finalizer_despite_cleanup_failure _ sampleState
    sampleSync "t1" rfl rfl rfl

/-- Counterexample for C5 as stated: with the tunnel missing and no fallback
configured, cleanup fails, yet the finalizer is removed and the
reconciliation reports success — deletion does not retry. -/
theorem reconcileDelete_no_retry_counterexample :
    (reconcileDelete
        { tunnelResolves := false, tunnelClientOK := false,
          fallbackSecretOK := false, fallbackTokenOK := false }
        sampleState sampleSync "t1" true).finalizerRemoved = true ∧
    (reconcileDelete
        { tunnelResolves := false, tunnelClientOK := false,
          fallbackSecretOK := false, fallbackTokenOK := false }
        sampleState sampleSync "t1" true).cleanupError.isSome = true :=
  ⟨by decide, by decide⟩

/-! ## No Pending records (C10) -/

theorem syncOneHostname_status_cases (st : CFState) (sync : CloudflareDNSSync)
    (tunnel : CloudflareTunnel) (zones : List (String × String))
    (ownershipPfx hostname : String) :
    (syncOneHostname st sync tunnel zones ownershipPfx hostname).2.1.Status = "Synced" ∨
    (syncOneHostname st sync tunnel zones ownershipPfx hostname).2.1.Status = "Failed" := by
  simp only [syncOneHostname]
  cases lookupZoneID zones (ExtractZoneFromHostname hostname) with
  | none => right; rfl
  | some zoneID =>
    dsimp only
    cases SyncRecord st zoneID
        (BuildCNAMERecord hostname tunnel.TunnelDomain sync.Spec.Defaults.Proxied
          ("managed by cfgate, tunnel=" ++ tunnel.Name)) with
    | error e => right; rfl
    | ok res => left; rfl

theorem syncFold_counts (sync : CloudflareDNSSync) (tunnel : CloudflareTunnel)
    (zones : List (String × String)) (ownershipPfx : String) :
    ∀ (hostnames : List String) (acc : SyncAcc),
      (hostnames.foldl (syncHostnameStep sync tunnel zones ownershipPfx) acc).pendingCount
        = acc.pendingCount ∧
      (hostnames.foldl (syncHostnameStep sync tunnel zones ownershipPfx) acc).syncedCount +
        (hostnames.foldl (syncHostnameStep sync tunnel zones ownershipPfx) acc).failedCount
        = acc.syncedCount + acc.failedCount + hostnames.length ∧
      (∀ e ∈ (hostnames.foldl (syncHostnameStep sync tunnel zones ownershipPfx)
          acc).recordStatuses,
        e ∈ acc.recordStatuses ∨ e.Status = "Synced" ∨ e.Status = "Failed") := by
  intro hostnames
  induction hostnames with
  | nil =>
    intro acc
    refine ⟨rfl, by simp, fun e he => Or.inl he⟩
  | cons h t ih =>
    intro acc
    obtain ⟨ihp, ihc, ihs⟩ := ih (syncHostnameStep sync tunnel zones ownershipPfx acc h)
    have hstep_p : (syncHostnameStep sync tunnel zones ownershipPfx acc h).pendingCount =
        acc.pendingCount := rfl
    have hstep_s : (syncHostnameStep sync tunnel zones ownershipPfx acc h).syncedCount =
        acc.syncedCount +
          (if (syncOneHostname acc.st sync tunnel zones ownershipPfx h).2.2.1
           then 1 else 0) := rfl
    have hstep_f : (syncHostnameStep sync tunnel zones ownershipPfx acc h).failedCount =
        acc.failedCount +
          (if (syncOneHostname acc.st sync tunnel zones ownershipPfx h).2.2.1
           then 0 else 1) := rfl
    have hstep_r : (syncHostnameStep sync tunnel zones ownershipPfx acc h).recordStatuses =
        acc.recordStatuses ++
          [(syncOneHostname acc.st sync tunnel zones ownershipPfx h).2.1] := rfl
    refine ⟨?_, ?_, ?_⟩
    · rw [List.foldl_cons, ihp, hstep_p]
    · rw [List.foldl_cons, ihc, hstep_s, hstep_f]
      cases hok : (syncOneHostname acc.st sync tunnel zones ownershipPfx h).2.2.1 <;>
        · simp only [List.length_cons]
          push_cast
          omega
    · intro e he
      rw [List.foldl_cons] at he
      rcases ihs e he with hmem | hs | hf
      · rw [hstep_r] at hmem
        rcases List.mem_append.mp hmem with hmem' | hmem'
        · exact Or.inl hmem'
        · have he' : e = (syncOneHostname acc.st sync tunnel zones ownershipPfx h).2.1 := by
            simpa using hmem'
          rw [he']
          exact Or.inr (syncOneHostname_status_cases _ _ _ _ _ _)
      · exact Or.inr (Or.inl hs)
      · exact Or.inr (Or.inr hf)

theorem orphanFold_preserves (sync : CloudflareDNSSync)
    (zones : List (String × String)) (hostnames : List String)
    (ownershipPfx : String) :
    ∀ (prevs : List DNSRecordStatus) (acc : SyncAcc),
      (prevs.foldl (orphanStep sync zones hostnames ownershipPfx) acc).pendingCount =
        acc.pendingCount ∧
      (prevs.foldl (orphanStep sync zones hostnames ownershipPfx) acc).syncedCount =
        acc.syncedCount ∧
      (prevs.foldl (orphanStep sync zones hostnames ownershipPfx) acc).failedCount =
        acc.failedCount ∧
      (prevs.foldl (orphanStep sync zones hostnames ownershipPfx) acc).recordStatuses =
        acc.recordStatuses := by
  intro prevs
  induction prevs with
  | nil => intro acc; exact ⟨rfl, rfl, rfl, rfl⟩
  | cons p t ih =>
    intro acc
    obtain ⟨ihp, ihs, ihf, ihr⟩ := ih (orphanStep sync zones hostnames ownershipPfx acc p)
    refine ⟨?_, ?_, ?_, ?_⟩
    · rw [List.foldl_cons, ihp]; rfl
    · rw [List.foldl_cons, ihs]; rfl
    · rw [List.foldl_cons, ihf]; rfl
    · rw [List.foldl_cons, ihr]; rfl

/-- C10: after every `syncRecords` pass, `PendingRecords` is `0`,
`SyncedRecords + FailedRecords` equals the number of desired hostnames, and
every per-record status entry is `Synced` or `Failed` — never `Pending`. -/
theorem syncRecords_no_pending (st : CFState) (sync : CloudflareDNSSync)
    (tunnel : CloudflareTunnel) (hostnames : List String)
    (zones : List (String × String)) :
    (syncRecords st sync tunnel hostnames zones).2.1.PendingRecords = 0 ∧
    (syncRecords st sync tunnel hostnames zones).2.1.SyncedRecords +
      (syncRecords st sync tunnel hostnames zones).2.1.FailedRecords =
      (hostnames.length : Int) ∧
    ∀ e ∈ (syncRecords st sync tunnel hostnames zones).2.1.Records,
      e.Status = "Synced" ∨ e.Status = "Failed" := by
  obtain ⟨hsp, hsc, hss⟩ := syncFold_counts sync tunnel zones
    (effectiveOwnershipPfx sync) hostnames ⟨st, [], 0, 0, 0, []⟩
  obtain ⟨hop, hos, hof, hor⟩ := orphanFold_preserves sync zones hostnames
    (effectiveOwnershipPfx sync) sync.Status.Records
    (hostnames.foldl (syncHostnameStep sync tunnel zones (effectiveOwnershipPfx sync))
      ⟨st, [], 0, 0, 0, []⟩)
  have hP : (syncRecords st sync tunnel hostnames zones).2.1.PendingRecords =
      (sync.Status.Records.foldl
        (orphanStep sync zones hostnames (effectiveOwnershipPfx sync))
        (hostnames.foldl (syncHostnameStep sync tunnel zones (effectiveOwnershipPfx sync))
          ⟨st, [], 0, 0, 0, []⟩)).pendingCount := rfl
  have hS : (syncRecords st sync tunnel hostnames zones).2.1.SyncedRecords =
      (sync.Status.Records.foldl
        (orphanStep sync zones hostnames (effectiveOwnershipPfx sync))
        (hostnames.foldl (syncHostnameStep sync tunnel zones (effectiveOwnershipPfx sync))
          ⟨st, [], 0, 0, 0, []⟩)).syncedCount := rfl
  have hF : (syncRecords st sync tunnel hostnames zones).2.1.FailedRecords =
      (sync.Status.Records.foldl
        (orphanStep sync zones hostnames (effectiveOwnershipPfx sync))
        (hostnames.foldl (syncHostnameStep sync tunnel zones (effectiveOwnershipPfx sync))
          ⟨st, [], 0, 0, 0, []⟩)).failedCount := rfl
  have hR : (syncRecords st sync tunnel hostnames zones).2.1.Records =
      (sync.Status.Records.foldl
        (orphanStep sync zones hostnames (effectiveOwnershipPfx sync))
        (hostnames.foldl (syncHostnameStep sync tunnel zones (effectiveOwnershipPfx sync))
          ⟨st, [], 0, 0, 0, []⟩)).recordStatuses := rfl
  refine ⟨?_, ?_, ?_⟩
  · rw [hP, hop, hsp]
  · rw [hS, hF, hos, hof, hsc]
    simp
  · intro e he
    rw [hR, hor] at he
    rcases hss e he with hmem | hrest
    · simp at hmem
    · exact hrest

/-! ## Ownership non-interference (C1) -/

/-- Does an API call mutate or delete the record `r` of zone `zoneID`? -/
def touchesRecord (zoneID : String) (r : DNSRecord) : APICall → Bool
  | APICall.update z i _ => z == zoneID && i == r.ID
  | APICall.delete z i => z == zoneID && i == r.ID
  | APICall.create _ _ => false

/-- `r` is a record of zone `zoneID`, uniquely identified there by its ID
and by its `(name, type)` pair. -/
def recIdentified (st : CFState) (zoneID : String) (r : DNSRecord) : Prop :=
  r ∈ (st.zones zoneID).records ∧
  (∀ q ∈ (st.zones zoneID).records, q.ID = r.ID → q = r) ∧
  (∀ q ∈ (st.zones zoneID).records, q.Name = r.Name → q.Type' = r.Type' → q = r)

/-- `r` carries no ownership marker: its comment lacks the sentinel and it
is not a TXT record named under the ownership prefix. -/
def foreignUnmarked (r : DNSRecord) (ownershipPfx : String) : Prop :=
  strContains r.Comment "managed by cfgate" = false ∧
  ¬(r.Type' = "TXT" ∧ strStartsWith r.Name (ownershipPfx ++ ".") = true)

theorem strStartsWith_append (a b : String) : strStartsWith (a ++ b) a = true := by
  unfold strStartsWith
  have hl : (a ++ b).toList = a.toList ++ b.toList := by
    simp [String.toList, String.data_append]
  rw [hl]
  simp [List.isPrefixOf_iff_prefix]

theorem setZone_same (st : CFState) (z : String) (zs : ZoneState) :
    (setZone st z zs).zones z = zs := by
  simp [setZone]

theorem setZone_other (st : CFState) (z : String) (zs : ZoneState) (w : String)
    (h : w ≠ z) : (setZone st z zs).zones w = st.zones w := by
  simp [setZone, h]

theorem FindRecordByName_ok_some {st : CFState} {zid n t : String} {q : DNSRecord}
    (h : FindRecordByName st zid n t = Except.ok (some q)) :
    q ∈ (st.zones zid).records ∧ q.Name = n ∧ q.Type' = t := by
  unfold FindRecordByName ListDNSRecords at h
  by_cases hlf : st.listFail zid = true
  · rw [if_pos hlf] at h
    exact Except.noConfusion h
  · rw [if_neg hlf] at h
    have h' : Except.ok (ε := String) (findRecordInList (st.zones zid).records n t) =
        Except.ok (some q) := h
    have h'' := Except.ok.inj h'
    unfold findRecordInList at h''
    have hmem := List.mem_of_find?_eq_some h''
    have hpred := List.find?_some h''
    simp only [Bool.and_eq_true, beq_iff_eq] at hpred
    exact ⟨hmem, hpred.1, hpred.2⟩

theorem FindRecordByName_ok_none {st : CFState} {zid n t : String}
    (h : FindRecordByName st zid n t = Except.ok none) :
    ∀ q ∈ (st.zones zid).records, ¬(q.Name = n ∧ q.Type' = t) := by
  unfold FindRecordByName ListDNSRecords at h
  by_cases hlf : st.listFail zid = true
  · rw [if_pos hlf] at h
    exact Except.noConfusion h
  · rw [if_neg hlf] at h
    have h' : Except.ok (ε := String) (findRecordInList (st.zones zid).records n t) =
        Except.ok none := h
    have h'' := Except.ok.inj h'
    unfold findRecordInList at h''
    intro q hq hqt
    have := List.find?_eq_none.mp h'' q hq
    simp only [Bool.and_eq_true, beq_iff_eq, not_and] at this
    exact this hqt.1 hqt.2

theorem recIdentified_create {st : CFState} {zid : String} {rec r : DNSRecord}
    {zr : String} (hInv : recIdentified st zr r)
    (hfresh : ∀ n, freshID n ≠ r.ID)
    (hpair : zid = zr → ¬(rec.Name = r.Name ∧ rec.Type' = r.Type')) :
    recIdentified (CreateDNSRecord st zid rec).1 zr r := by
  obtain ⟨hmem, hP1, hP2⟩ := hInv
  by_cases hz : zr = zid
  · subst hz
    unfold CreateDNSRecord
    have hzone : ((setZone st zr
        { records := (st.zones zr).records ++
            [{ rec with ID := freshID (st.zones zr).nextID }],
          nextID := (st.zones zr).nextID + 1 }).zones zr) =
        { records := (st.zones zr).records ++
            [{ rec with ID := freshID (st.zones zr).nextID }],
          nextID := (st.zones zr).nextID + 1 } := setZone_same _ _ _
    refine ⟨?_, ?_, ?_⟩
    · rw [hzone]
      exact List.mem_append_left _ hmem
    · rw [hzone]
      intro q hq hid
      rcases List.mem_append.mp hq with hq' | hq'
      · exact hP1 q hq' hid
      · have hq'' : q = { rec with ID := freshID (st.zones zr).nextID } := by
          simpa using hq'
        rw [hq''] at hid
        exact absurd hid (hfresh _)
    · rw [hzone]
      intro q hq hname htype
      rcases List.mem_append.mp hq with hq' | hq'
      · exact hP2 q hq' hname htype
      · have hq'' : q = { rec with ID := freshID (st.zones zr).nextID } := by
          simpa using hq'
        rw [hq''] at hname htype
        exact absurd ⟨hname, htype⟩ (hpair rfl)
  · have hzone : ((CreateDNSRecord st zid rec).1.zones zr) = st.zones zr := by
      unfold CreateDNSRecord
      exact setZone_other _ _ _ _ hz
    exact ⟨by rw [hzone]; exact hmem, by rw [hzone]; exact hP1, by rw [hzone]; exact hP2⟩

theorem recIdentified_update {st : CFState} {zid i : String} {rec r : DNSRecord}
    {zr : String} (hInv : recIdentified st zr r)
    (hi : zid = zr → i ≠ r.ID)
    (hpair : zid = zr → ¬(rec.Name = r.Name ∧ rec.Type' = r.Type')) :
    recIdentified (UpdateDNSRecord st zid i rec).1 zr r := by
  obtain ⟨hmem, hP1, hP2⟩ := hInv
  by_cases hz : zr = zid
  · subst hz
    have hir : i ≠ r.ID := hi rfl
    unfold UpdateDNSRecord
    have hzone : ((setZone st zr
        { records := (st.zones zr).records.map
            (fun q => if q.ID = i then { rec with ID := i } else q),
          nextID := (st.zones zr).nextID }).zones zr) =
        { records := (st.zones zr).records.map
            (fun q => if q.ID = i then { rec with ID := i } else q),
          nextID := (st.zones zr).nextID } := setZone_same _ _ _
    refine ⟨?_, ?_, ?_⟩
    · rw [hzone]
      have hrid : ¬ r.ID = i := fun hh => hir hh.symm
      have : (fun q => if q.ID = i then { rec with ID := i } else q) r = r := by
        simp [hrid]
      rw [show r = (fun q => if q.ID = i then { rec with ID := i } else q) r from
        this.symm]
      exact List.mem_map_of_mem _ hmem
    · rw [hzone]
      intro q hq hid
      obtain ⟨q0, hq0, hfq0⟩ := List.mem_map.mp hq
      by_cases h0 : q0.ID = i
      · rw [if_pos h0] at hfq0
        rw [← hfq0] at hid
        exact absurd hid hir
      · rw [if_neg h0] at hfq0
        rw [← hfq0] at hid ⊢
        exact hP1 q0 hq0 hid
    · rw [hzone]
      intro q hq hname htype
      obtain ⟨q0, hq0, hfq0⟩ := List.mem_map.mp hq
      by_cases h0 : q0.ID = i
      · rw [if_pos h0] at hfq0
        rw [← hfq0] at hname htype
        exact absurd ⟨hname, htype⟩ (hpair rfl)
      · rw [if_neg h0] at hfq0
        rw [← hfq0] at hname htype ⊢
        exact hP2 q0 hq0 hname htype
  · have hzone : ((UpdateDNSRecord st zid i rec).1.zones zr) = st.zones zr := by
      unfold UpdateDNSRecord
      exact setZone_other _ _ _ _ hz
    exact ⟨by rw [hzone]; exact hmem, by rw [hzone]; exact hP1, by rw [hzone]; exact hP2⟩

theorem recIdentified_delete {st : CFState} {zid i : String} {r : DNSRecord}
    {zr : String} (hInv : recIdentified st zr r) (hi : zid = zr → i ≠ r.ID) :
    recIdentified (DeleteDNSRecord st zid i).1 zr r := by
  obtain ⟨hmem, hP1, hP2⟩ := hInv
  by_cases hz : zr = zid
  · subst hz
    have hir : i ≠ r.ID := hi rfl
    unfold DeleteDNSRecord
    have hzone : ((setZone st zr
        { records := (st.zones zr).records.filter (fun q => q.ID != i),
          nextID := (st.zones zr).nextID }).zones zr) =
        { records := (st.zones zr).records.filter (fun q => q.ID != i),
          nextID := (st.zones zr).nextID } := setZone_same _ _ _
    refine ⟨?_, ?_, ?_⟩
    · rw [hzone]
      refine List.mem_filter.mpr ⟨hmem, ?_⟩
      have hrid : ¬ r.ID = i := fun hh => hir hh.symm
      simp [hrid]
    · rw [hzone]
      intro q hq hid
      exact hP1 q (List.mem_of_mem_filter hq) hid
    · rw [hzone]
      intro q hq hname htype
      exact hP2 q (List.mem_of_mem_filter hq) hname htype
  · have hzone : ((DeleteDNSRecord st zid i).1.zones zr) = st.zones zr := by
      unfold DeleteDNSRecord
      exact setZone_other _ _ _ _ hz
    exact ⟨by rw [hzone]; exact hmem, by rw [hzone]; exact hP1, by rw [hzone]; exact hP2⟩

theorem owned_ne_unmarked {existing r : DNSRecord}
    (howned : IsOwnedByCfgate existing "" "" = true)
    (hsent : strContains r.Comment "managed by cfgate" = false) :
    existing ≠ r := by
  intro hh
  subst hh
  unfold IsOwnedByCfgate at howned
  rw [hsent] at howned
  simp at howned

theorem prefixed_txt_ne_unmarked {r : DNSRecord} {ownershipPfx hostname tunnelName : String}
    (hfu : foreignUnmarked r ownershipPfx) :
    ¬((BuildOwnershipTXTRecord hostname tunnelName ownershipPfx).Name = r.Name ∧
      (BuildOwnershipTXTRecord hostname tunnelName ownershipPfx).Type' = r.Type') := by
  intro hh
  obtain ⟨hn, ht⟩ := hh
  refine hfu.2 ⟨ht.symm, ?_⟩
  rw [← hn]
  exact strStartsWith_append (ownershipPfx ++ ".") hostname

theorem safe_SyncRecord {st : CFState} {zid : String} {desired : DNSRecord}
    {zr : String} {r : DNSRecord}
    (hInv : recIdentified st zr r)
    (hsent : strContains r.Comment "managed by cfgate" = false)
    (hfresh : ∀ n, freshID n ≠ r.ID) :
    ∀ {res : CFState × DNSRecord × Bool × List APICall},
      SyncRecord st zid desired = Except.ok res →
      (∀ c ∈ res.2.2.2, touchesRecord zr r c = false) ∧ recIdentified res.1 zr r := by
  intro res hres
  cases hfind : FindRecordByName st zid desired.Name desired.Type' with
  | error e =>
    rw [show SyncRecord st zid desired =
        Except.error ("failed to find existing record: " ++ e) from by
      simp only [SyncRecord, hfind]] at hres
    exact Except.noConfusion hres
  | ok o =>
    cases o with
    | none =>
      have hval : SyncRecord st zid desired =
          Except.ok ((CreateDNSRecord st zid desired).1,
            (CreateDNSRecord st zid desired).2.1, true,
            (CreateDNSRecord st zid desired).2.2) := by
        simp only [SyncRecord, hfind]
      rw [hval] at hres
      have hreq := (Except.ok.inj hres).symm
      subst hreq
      constructor
      · intro c hc
        have hc' : c = APICall.create zid desired := by
          have hcalls : (CreateDNSRecord st zid desired).2.2 =
              [APICall.create zid desired] := rfl
          rw [hcalls] at hc
          simpa using hc
        rw [hc']
        rfl
      · refine recIdentified_create hInv hfresh ?_
        intro hzz hne
        subst hzz
        exact FindRecordByName_ok_none hfind r hInv.1 ⟨hne.1.symm, hne.2.symm⟩
    | some existing =>
      obtain ⟨hexmem, hexname, hextype⟩ := FindRecordByName_ok_some hfind
      by_cases howned : IsOwnedByCfgate existing "" "" = true
      · by_cases hmatch : recordsMatch existing desired = true
        · have hval : SyncRecord st zid desired = Except.ok (st, existing, false, []) := by
            simp only [SyncRecord, hfind, howned, hmatch]
            simp
          rw [hval] at hres
          have hreq := (Except.ok.inj hres).symm
          subst hreq
          exact ⟨fun c hc => absurd hc (by simp), hInv⟩
        · have hval : SyncRecord st zid desired =
              Except.ok ((UpdateDNSRecord st zid existing.ID desired).1,
                (UpdateDNSRecord st zid existing.ID desired).2.1, true,
                (UpdateDNSRecord st zid existing.ID desired).2.2) := by
            simp only [SyncRecord, hfind, howned, hmatch]
            simp
          rw [hval] at hres
          have hreq := (Except.ok.inj hres).symm
          subst hreq
          have hexid : zid = zr → existing.ID ≠ r.ID := by
            intro hzz hid
            subst hzz
            exact owned_ne_unmarked howned hsent (hInv.2.1 existing hexmem hid)
          have hpair : zid = zr → ¬(desired.Name = r.Name ∧ desired.Type' = r.Type') := by
            intro hzz hne
            subst hzz
            have hexr : existing = r :=
              hInv.2.2 existing hexmem (hexname.trans hne.1) (hextype.trans hne.2)
            exact owned_ne_unmarked howned hsent hexr
          constructor
          · intro c hc
            have hc' : c = APICall.update zid existing.ID desired := by
              have hcalls : (UpdateDNSRecord st zid existing.ID desired).2.2 =
                  [APICall.update zid existing.ID desired] := rfl
              rw [hcalls] at hc
              simpa using hc
            rw [hc']
            show (zid == zr && existing.ID == r.ID) = false
            by_cases hzz : zid = zr
            · have := hexid hzz
              simp [this]
            · simp [hzz]
          · exact recIdentified_update hInv hexid hpair
      · have hnotowned : IsOwnedByCfgate existing "" "" = false := by
          simpa using howned
        have hval : SyncRecord st zid desired = Except.ok (st, existing, false, []) := by
          simp only [SyncRecord, hfind, hnotowned]
          simp
        rw [hval] at hres
        have hreq := (Except.ok.inj hres).symm
        subst hreq
        exact ⟨fun c hc => absurd hc (by simp), hInv⟩

theorem safe_CreateOwnershipRecord {st : CFState} {zid hostname tunnelName ownPfx : String}
    {zr : String} {r : DNSRecord}
    (hInv : recIdentified st zr r)
    (hfu : foreignUnmarked r ownPfx)
    (hfresh : ∀ n, freshID n ≠ r.ID) :
    ∀ {res : CFState × List APICall},
      CreateOwnershipRecord st zid hostname tunnelName ownPfx = Except.ok res →
      (∀ c ∈ res.2, touchesRecord zr r c = false) ∧ recIdentified res.1 zr r := by
  intro res hres
  cases hfind : FindRecordByName st zid
      (BuildOwnershipTXTRecord hostname tunnelName ownPfx).Name
      (BuildOwnershipTXTRecord hostname tunnelName ownPfx).Type' with
  | error e =>
    rw [show CreateOwnershipRecord st zid hostname tunnelName ownPfx =
        Except.error ("failed to check existing ownership record: " ++ e) from by
      simp only [CreateOwnershipRecord, hfind]] at hres
    exact Except.noConfusion hres
  | ok o =>
    cases o with
    | none =>
      have hval : CreateOwnershipRecord st zid hostname tunnelName ownPfx =
          Except.ok ((CreateDNSRecord st zid
              (BuildOwnershipTXTRecord hostname tunnelName ownPfx)).1,
            (CreateDNSRecord st zid
              (BuildOwnershipTXTRecord hostname tunnelName ownPfx)).2.2) := by
        simp only [CreateOwnershipRecord, hfind]
      rw [hval] at hres
      have hreq := (Except.ok.inj hres).symm
      subst hreq
      constructor
      · intro c hc
        have hc' : c = APICall.create zid
            (BuildOwnershipTXTRecord hostname tunnelName ownPfx) := by
          have hcalls : (CreateDNSRecord st zid
              (BuildOwnershipTXTRecord hostname tunnelName ownPfx)).2.2 =
              [APICall.create zid (BuildOwnershipTXTRecord hostname tunnelName ownPfx)] :=
            rfl
          rw [hcalls] at hc
          simpa using hc
        rw [hc']
        rfl
      · exact recIdentified_create hInv hfresh
          (fun _ => prefixed_txt_ne_unmarked hfu)
    | some existing =>
      obtain ⟨hexmem, hexname, hextype⟩ := FindRecordByName_ok_some hfind
      have hexid : zid = zr → existing.ID ≠ r.ID := by
        intro hzz hid
        subst hzz
        have hexr := hInv.2.1 existing hexmem hid
        refine @prefixed_txt_ne_unmarked r ownPfx hostname tunnelName hfu ⟨?_, ?_⟩
        · rw [← hexr, hexname]
        · rw [← hexr, hextype]
      by_cases hmatch : (existing.Content ==
          (BuildOwnershipTXTRecord hostname tunnelName ownPfx).Content &&
          existing.Comment ==
          (BuildOwnershipTXTRecord hostname tunnelName ownPfx).Comment) = true
      · have hval : CreateOwnershipRecord st zid hostname tunnelName ownPfx =
            Except.ok (st, []) := by
          simp only [CreateOwnershipRecord, hfind, hmatch]
          simp
        rw [hval] at hres
        have hreq := (Except.ok.inj hres).symm
        subst hreq
        exact ⟨fun c hc => absurd hc (by simp), hInv⟩
      · have hmatch' : (existing.Content ==
            (BuildOwnershipTXTRecord hostname tunnelName ownPfx).Content &&
            existing.Comment ==
            (BuildOwnershipTXTRecord hostname tunnelName ownPfx).Comment) = false := by
          simpa using hmatch
        have hval : CreateOwnershipRecord st zid hostname tunnelName ownPfx =
            Except.ok ((UpdateDNSRecord st zid existing.ID
                (BuildOwnershipTXTRecord hostname tunnelName ownPfx)).1,
              (UpdateDNSRecord st zid existing.ID
                (BuildOwnershipTXTRecord hostname tunnelName ownPfx)).2.2) := by
          simp only [CreateOwnershipRecord, hfind, hmatch']
          simp
        rw [hval] at hres
        have hreq := (Except.ok.inj hres).symm
        subst hreq
        constructor
        · intro c hc
          have hc' : c = APICall.update zid existing.ID
              (BuildOwnershipTXTRecord hostname tunnelName ownPfx) := by
            have hcalls : (UpdateDNSRecord st zid existing.ID
                (BuildOwnershipTXTRecord hostname tunnelName ownPfx)).2.2 =
                [APICall.update zid existing.ID
                  (BuildOwnershipTXTRecord hostname tunnelName ownPfx)] := rfl
            rw [hcalls] at hc
            simpa using hc
          rw [hc']
          show (zid == zr && existing.ID == r.ID) = false
          by_cases hzz : zid = zr
          · have := hexid hzz
            simp [this]
          · simp [hzz]
        · exact recIdentified_update hInv hexid
            (fun _ => prefixed_txt_ne_unmarked hfu)

theorem safe_DeleteOwnershipRecord {st : CFState} {zid hostname ownPfx : String}
    {zr : String} {r : DNSRecord}
    (hInv : recIdentified st zr r)
    (hfu : foreignUnmarked r ownPfx) :
    ∀ {res : CFState × List APICall},
      DeleteOwnershipRecord st zid hostname ownPfx = Except.ok res →
      (∀ c ∈ res.2, touchesRecord zr r c = false) ∧ recIdentified res.1 zr r := by
  intro res hres
  cases hfind : FindRecordByName st zid (ownPfx ++ "." ++ hostname) "TXT" with
  | error e =>
    rw [show DeleteOwnershipRecord st zid hostname ownPfx =
        Except.error ("failed to find ownership record: " ++ e) from by
      simp only [DeleteOwnershipRecord, hfind]] at hres
    exact Except.noConfusion hres
  | ok o =>
    cases o with
    | none =>
      have hval : DeleteOwnershipRecord st zid hostname ownPfx =
          Except.ok (st, []) := by
        simp only [DeleteOwnershipRecord, hfind]
      rw [hval] at hres
      have hreq := (Except.ok.inj hres).symm
      subst hreq
      exact ⟨fun c hc => absurd hc (by simp), hInv⟩
    | some record0 =>
      obtain ⟨hexmem, hexname, hextype⟩ := FindRecordByName_ok_some hfind
      have hexid : zid = zr → record0.ID ≠ r.ID := by
        intro hzz hid
        subst hzz
        have hexr := hInv.2.1 record0 hexmem hid
        refine hfu.2 ⟨?_, ?_⟩
        · rw [← hexr]
          exact hextype
        · rw [← hexr, hexname]
          exact strStartsWith_append (ownPfx ++ ".") hostname
      have hval : DeleteOwnershipRecord st zid hostname ownPfx =
          Except.ok (DeleteRecord st zid record0.ID) := by
        simp only [DeleteOwnershipRecord, hfind]
      rw [hval] at hres
      have hreq := (Except.ok.inj hres).symm
      subst hreq
      constructor
      · intro c hc
        have hc' : c = APICall.delete zid record0.ID := by
          have hcalls : (DeleteRecord st zid record0.ID).2 =
              [APICall.delete zid record0.ID] := rfl
          rw [hcalls] at hc
          simpa using hc
        rw [hc']
        show (zid == zr && record0.ID == r.ID) = false
        by_cases hzz : zid = zr
        · have := hexid hzz
          simp [this]
        · simp [hzz]
      · exact recIdentified_delete hInv hexid

theorem safe_syncOneHostname {st : CFState} {sync : CloudflareDNSSync}
    {tunnel : CloudflareTunnel} {zones : List (String × String)}
    {ownPfx hostname : String} {zr : String} {r : DNSRecord}
    (hInv : recIdentified st zr r)
    (hfu : foreignUnmarked r ownPfx)
    (hfresh : ∀ n, freshID n ≠ r.ID) :
    (∀ c ∈ (syncOneHostname st sync tunnel zones ownPfx hostname).2.2.2,
      touchesRecord zr r c = false) ∧
    recIdentified (syncOneHostname st sync tunnel zones ownPfx hostname).1 zr r := by
  simp only [syncOneHostname]
  cases hz : lookupZoneID zones (ExtractZoneFromHostname hostname) with
  | none => exact ⟨fun c hc => absurd hc (by simp), hInv⟩
  | some zoneID =>
    dsimp only
    cases hs : SyncRecord st zoneID (BuildCNAMERecord hostname tunnel.TunnelDomain
        sync.Spec.Defaults.Proxied ("managed by cfgate, tunnel=" ++ tunnel.Name)) with
    | error e => exact ⟨fun c hc => absurd hc (by simp), hInv⟩
    | ok res =>
      obtain ⟨hsafe1, hInv1⟩ := safe_SyncRecord hInv hfu.1 hfresh hs
      dsimp only
      by_cases hTXT : sync.Spec.Ownership.TXTRecord.Enabled = true
      · rw [if_pos hTXT]
        cases hc2 : CreateOwnershipRecord res.1 zoneID hostname tunnel.Name ownPfx with
        | error e2 =>
          dsimp only
          constructor
          · intro c hc
            rcases List.mem_append.mp hc with h1 | h1
            · exact hsafe1 c h1
            · exact absurd h1 (by simp)
          · exact hInv1
        | ok res2 =>
          obtain ⟨hsafe2, hInv2⟩ := safe_CreateOwnershipRecord hInv1 hfu hfresh hc2
          dsimp only
          constructor
          · intro c hc
            rcases List.mem_append.mp hc with h1 | h1
            · exact hsafe1 c h1
            · exact hsafe2 c h1
          · exact hInv2
      · rw [if_neg hTXT]
        dsimp only
        constructor
        · intro c hc
          rcases List.mem_append.mp hc with h1 | h1
          · exact hsafe1 c h1
          · exact absurd h1 (by simp)
        · exact hInv1

theorem safe_deleteOrphan {st : CFState} {sync : CloudflareDNSSync}
    {zones : List (String × String)} {hostnames : List String}
    {ownPfx : String} {prevRecord : DNSRecordStatus} {zr : String} {r : DNSRecord}
    (hInv : recIdentified st zr r)
    (hfu : foreignUnmarked r ownPfx)
    (hprev : prevRecord.RecordID = r.ID →
      prevRecord.Hostname = r.Name ∧ prevRecord.Type' = r.Type') :
    (∀ c ∈ (deleteOrphan st sync zones hostnames ownPfx prevRecord).2,
      touchesRecord zr r c = false) ∧
    recIdentified (deleteOrphan st sync zones hostnames ownPfx prevRecord).1 zr r := by
  simp only [deleteOrphan]
  by_cases hcond : (! hostnames.contains prevRecord.Hostname &&
      prevRecord.RecordID != "") = true
  · rw [if_pos hcond]
    cases hz : lookupZoneID zones (ExtractZoneFromHostname prevRecord.Hostname) with
    | none => exact ⟨fun c hc => absurd hc (by simp), hInv⟩
    | some zoneID =>
      dsimp only
      cases hf : FindRecordByName st zoneID prevRecord.Hostname prevRecord.Type' with
      | error e => exact ⟨fun c hc => absurd hc (by simp), hInv⟩
      | ok o =>
        cases o with
        | none => exact ⟨fun c hc => absurd hc (by simp), hInv⟩
        | some existingRecord =>
          dsimp only
          obtain ⟨hexmem, hexname, hextype⟩ := FindRecordByName_ok_some hf
          by_cases howned : IsOwnedByCfgate existingRecord "" "" = true
          · rw [if_pos howned]
            have hdelid : zoneID = zr → prevRecord.RecordID ≠ r.ID := by
              intro hzz hid
              subst hzz
              obtain ⟨hprev1, hprev2⟩ := hprev hid
              have hexr : existingRecord = r :=
                hInv.2.2 existingRecord hexmem (hexname.trans hprev1)
                  (hextype.trans hprev2)
              exact owned_ne_unmarked howned hfu.1 hexr
            have hInv1 : recIdentified (DeleteRecord st zoneID prevRecord.RecordID).1 zr r :=
              recIdentified_delete hInv hdelid
            have hsafe1 : ∀ c ∈ (DeleteRecord st zoneID prevRecord.RecordID).2,
                touchesRecord zr r c = false := by
              intro c hc
              have hcalls : (DeleteRecord st zoneID prevRecord.RecordID).2 =
                  [APICall.delete zoneID prevRecord.RecordID] := rfl
              rw [hcalls] at hc
              have hc' : c = APICall.delete zoneID prevRecord.RecordID := by
                simpa using hc
              rw [hc']
              show (zoneID == zr && prevRecord.RecordID == r.ID) = false
              by_cases hzz : zoneID = zr
              · have := hdelid hzz
                simp [this]
              · simp [hzz]
            by_cases hTXT : sync.Spec.Ownership.TXTRecord.Enabled = true
            · rw [if_pos hTXT]
              cases hc2 : DeleteOwnershipRecord (DeleteRecord st zoneID prevRecord.RecordID).1
                  zoneID prevRecord.Hostname ownPfx with
              | error e2 =>
                dsimp only
                constructor
                · intro c hc
                  rcases List.mem_append.mp hc with h1 | h1
                  · exact hsafe1 c h1
                  · exact absurd h1 (by simp)
                · exact hInv1
              | ok res2 =>
                obtain ⟨hsafe2, hInv2⟩ := safe_DeleteOwnershipRecord hInv1 hfu hc2
                dsimp only
                constructor
                · intro c hc
                  rcases List.mem_append.mp hc with h1 | h1
                  · exact hsafe1 c h1
                  · exact hsafe2 c h1
                · exact hInv2
            · rw [if_neg hTXT]
              dsimp only
              constructor
              · intro c hc
                rcases List.mem_append.mp hc with h1 | h1
                · exact hsafe1 c h1
                · exact absurd h1 (by simp)
              · exact hInv1
          · rw [if_neg howned]
            exact ⟨fun c hc => absurd hc (by simp), hInv⟩
  · rw [if_neg hcond]
    exact ⟨fun c hc => absurd hc (by simp), hInv⟩

theorem safe_syncFold {sync : CloudflareDNSSync} {tunnel : CloudflareTunnel}
    {zones : List (String × String)} {ownPfx : String} {zr : String} {r : DNSRecord}
    (hfu : foreignUnmarked r ownPfx) (hfresh : ∀ n, freshID n ≠ r.ID) :
    ∀ (hostnames : List String) (acc : SyncAcc),
      recIdentified acc.st zr r →
      (∀ c ∈ acc.calls, touchesRecord zr r c = false) →
      recIdentified
        ((hostnames.foldl (syncHostnameStep sync tunnel zones ownPfx) acc).st) zr r ∧
      (∀ c ∈ (hostnames.foldl (syncHostnameStep sync tunnel zones ownPfx) acc).calls,
        touchesRecord zr r c = false) := by
  intro hostnames
  induction hostnames with
  | nil => intro acc hInv hsafe; exact ⟨hInv, hsafe⟩
  | cons h t ih =>
    intro acc hInv hsafe
    obtain ⟨hstep_safe, hstep_inv⟩ :=
      @safe_syncOneHostname acc.st sync tunnel zones ownPfx h zr r hInv hfu hfresh
    have hstep_st : (syncHostnameStep sync tunnel zones ownPfx acc h).st =
        (syncOneHostname acc.st sync tunnel zones ownPfx h).1 := rfl
    have hstep_calls : (syncHostnameStep sync tunnel zones ownPfx acc h).calls =
        acc.calls ++ (syncOneHostname acc.st sync tunnel zones ownPfx h).2.2.2 := rfl
    rw [List.foldl_cons]
    refine ih _ ?_ ?_
    · rw [hstep_st]; exact hstep_inv
    · rw [hstep_calls]
      intro c hc
      rcases List.mem_append.mp hc with h1 | h1
      · exact hsafe c h1
      · exact hstep_safe c h1

theorem safe_orphanFold {sync : CloudflareDNSSync} {zones : List (String × String)}
    {hostnames : List String} {ownPfx : String} {zr : String} {r : DNSRecord}
    (hfu : foreignUnmarked r ownPfx) :
    ∀ (prevs : List DNSRecordStatus) (acc : SyncAcc),
      (∀ p ∈ prevs, p.RecordID = r.ID → p.Hostname = r.Name ∧ p.Type' = r.Type') →
      recIdentified acc.st zr r →
      (∀ c ∈ acc.calls, touchesRecord zr r c = false) →
      recIdentified
        ((prevs.foldl (orphanStep sync zones hostnames ownPfx) acc).st) zr r ∧
      (∀ c ∈ (prevs.foldl (orphanStep sync zones hostnames ownPfx) acc).calls,
        touchesRecord zr r c = false) := by
  intro prevs
  induction prevs with
  | nil => intro acc _ hInv hsafe; exact ⟨hInv, hsafe⟩
  | cons p t ih =>
    intro acc hprevs hInv hsafe
    obtain ⟨hstep_safe, hstep_inv⟩ :=
      @safe_deleteOrphan acc.st sync zones hostnames ownPfx p zr r hInv hfu
        (hprevs p (by simp))
    have hstep_st : (orphanStep sync zones hostnames ownPfx acc p).st =
        (deleteOrphan acc.st sync zones hostnames ownPfx p).1 := rfl
    have hstep_calls : (orphanStep sync zones hostnames ownPfx acc p).calls =
        acc.calls ++ (deleteOrphan acc.st sync zones hostnames ownPfx p).2 := rfl
    rw [List.foldl_cons]
    refine ih _ (fun q hq => hprevs q (by simp [hq])) ?_ ?_
    · rw [hstep_st]; exact hstep_inv
    · rw [hstep_calls]
      intro c hc
      rcases List.mem_append.mp hc with h1 | h1
      · exact hsafe c h1
      · exact hstep_safe c h1

/-- `r` is the only record with its ID in zone `zr` (the part of
`recIdentified` the cleanup path needs). -/
def idUniqueTo (st : CFState) (zr : String) (r : DNSRecord) : Prop :=
  ∀ q ∈ (st.zones zr).records, q.ID = r.ID → q = r

theorem idUniqueTo_delete {st : CFState} {zid i zr : String} {r : DNSRecord}
    (h : idUniqueTo st zr r) : idUniqueTo (DeleteDNSRecord st zid i).1 zr r := by
  by_cases hz : zr = zid
  · subst hz
    intro q hq hid
    have hzone : ((DeleteDNSRecord st zr i).1.zones zr) =
        { records := (st.zones zr).records.filter (fun q => q.ID != i),
          nextID := (st.zones zr).nextID } := by
      unfold DeleteDNSRecord
      exact setZone_same _ _ _
    rw [hzone] at hq
    exact h q (List.mem_of_mem_filter hq) hid
  · intro q hq hid
    have hzone : ((DeleteDNSRecord st zid i).1.zones zr) = st.zones zr := by
      unfold DeleteDNSRecord
      exact setZone_other _ _ _ _ hz
    rw [hzone] at hq
    exact h q hq hid

theorem unmarked_not_managed {r : DNSRecord} {ownPfx : String}
    (hfu : foreignUnmarked r ownPfx) :
    (strContains r.Comment "managed by cfgate" ||
      (r.Type' == "TXT" && strStartsWith r.Name (ownPfx ++ "."))) = false := by
  obtain ⟨h1, h2⟩ := hfu
  rw [h1]
  by_cases ht : r.Type' = "TXT" <;>
    by_cases hs : strStartsWith r.Name (ownPfx ++ ".") = true <;>
      simp_all

theorem ListManagedRecords_ok {st : CFState} {zid ownPfx : String}
    {l : List DNSRecord} (h : ListManagedRecords st zid ownPfx = Except.ok l) :
    l = managedRecordsFilter (st.zones zid).records ownPfx := by
  unfold ListManagedRecords ListDNSRecords at h
  by_cases hlf : st.listFail zid = true
  · rw [if_pos hlf] at h
    exact Except.noConfusion h
  · rw [if_neg hlf] at h
    have h' : Except.ok (ε := String)
        (managedRecordsFilter (st.zones zid).records ownPfx) = Except.ok l := h
    exact (Except.ok.inj h').symm

theorem safe_cleanupRecordFold {zoneID tname : String} {onlyManaged : Bool}
    {zr : String} {r : DNSRecord} {ownPfx : String} {stSnap : CFState}
    (hfu : foreignUnmarked r ownPfx)
    (hP1snap : idUniqueTo stSnap zr r) :
    ∀ (records : List DNSRecord) (acc : CFState × List APICall),
      (∀ q ∈ records, q ∈ managedRecordsFilter ((stSnap.zones zoneID).records) ownPfx) →
      idUniqueTo acc.1 zr r →
      (∀ c ∈ acc.2, touchesRecord zr r c = false) →
      idUniqueTo (records.foldl (cleanupRecordStep zoneID tname onlyManaged) acc).1 zr r ∧
      (∀ c ∈ (records.foldl (cleanupRecordStep zoneID tname onlyManaged) acc).2,
        touchesRecord zr r c = false) := by
  intro records
  induction records with
  | nil => intro acc _ hP1 hsafe; exact ⟨hP1, hsafe⟩
  | cons q t ih =>
    intro acc hqs hP1 hsafe
    have hqmem := hqs q (by simp)
    have hqid : zoneID = zr → q.ID ≠ r.ID := by
      intro hzz hid
      subst hzz
      have hq' : q ∈ (stSnap.zones zoneID).records :=
        List.mem_of_mem_filter hqmem
      have hqr : q = r := hP1snap q hq' hid
      have hmarker := List.of_mem_filter hqmem
      rw [hqr] at hmarker
      rw [unmarked_not_managed hfu] at hmarker
      exact Bool.noConfusion hmarker
    rw [List.foldl_cons]
    refine ih _ (fun p hp => hqs p (by simp [hp])) ?_ ?_
    · unfold cleanupRecordStep
      split
      · exact idUniqueTo_delete hP1
      · exact hP1
    · unfold cleanupRecordStep
      split
      · intro c hc
        have hcalls : (DeleteRecord acc.1 zoneID q.ID).2 =
            [APICall.delete zoneID q.ID] := rfl
        dsimp only at hc
        rw [hcalls] at hc
        rcases List.mem_append.mp hc with h1 | h1
        · exact hsafe c h1
        · have hc' : c = APICall.delete zoneID q.ID := by simpa using h1
          rw [hc']
          show (zoneID == zr && q.ID == r.ID) = false
          by_cases hzz : zoneID = zr
          · have := hqid hzz
            simp [this]
          · simp [hzz]
      · exact hsafe

theorem safe_cleanupZoneFold {ownPfx tname : String} {onlyManaged : Bool}
    {zr : String} {r : DNSRecord}
    (hfu : foreignUnmarked r ownPfx) :
    ∀ (zcs : List ZoneConfig) (acc : CFState × List APICall),
      idUniqueTo acc.1 zr r →
      (∀ c ∈ acc.2, touchesRecord zr r c = false) →
      idUniqueTo (zcs.foldl (cleanupZoneStep ownPfx tname onlyManaged) acc).1 zr r ∧
      (∀ c ∈ (zcs.foldl (cleanupZoneStep ownPfx tname onlyManaged) acc).2,
        touchesRecord zr r c = false) := by
  intro zcs
  induction zcs with
  | nil => intro acc h1 h2; exact ⟨h1, h2⟩
  | cons zc t ih =>
    intro acc hP1 hsafe
    rw [List.foldl_cons]
    have hstep : idUniqueTo (cleanupZoneStep ownPfx tname onlyManaged acc zc).1 zr r ∧
        (∀ c ∈ (cleanupZoneStep ownPfx tname onlyManaged acc zc).2,
          touchesRecord zr r c = false) := by
      simp only [cleanupZoneStep]
      cases hzid : (if zc.ID != "" then some zc.ID else ResolveZone acc.1 zc.Name) with
      | none => exact ⟨hP1, hsafe⟩
      | some zoneID =>
        dsimp only
        cases hlm : ListManagedRecords acc.1 zoneID ownPfx with
        | error e => exact ⟨hP1, hsafe⟩
        | ok records =>
          have hrec := ListManagedRecords_ok hlm
          exact safe_cleanupRecordFold hfu hP1 records acc
            (by rw [hrec]; exact fun q hq => hq) hP1 hsafe
    exact ih _ hstep.1 hstep.2

theorem safe_cleanupRecordsWithFallback {env : DeleteEnv} {st : CFState}
    {sync : CloudflareDNSSync} {tunnelName zr : String} {r : DNSRecord}
    (hP1 : idUniqueTo st zr r)
    (hfu : foreignUnmarked r (effectiveOwnershipPfx sync)) :
    ∀ {res : CFState × List APICall},
      cleanupRecordsWithFallback env st sync tunnelName = Except.ok res →
      ∀ c ∈ res.2, touchesRecord zr r c = false := by
  intro res hok
  cases hcl : getCloudflareClientWithFallback env sync with
  | error e =>
    rw [show cleanupRecordsWithFallback env st sync tunnelName =
        Except.error ("failed to get Cloudflare client: " ++ e) from by
      simp only [cleanupRecordsWithFallback, hcl]] at hok
    exact Except.noConfusion hok
  | ok u =>
    cases u
    have hval : cleanupRecordsWithFallback env st sync tunnelName =
        Except.ok (sync.Spec.Zones.foldl
          (cleanupZoneStep (effectiveOwnershipPfx sync)
            (if env.tunnelResolves then tunnelName else "")
            sync.Spec.CleanupPolicy.OnlyManaged) (st, [])) := by
      simp only [cleanupRecordsWithFallback, hcl]
    rw [hval] at hok
    have hreq := (Except.ok.inj hok).symm
    subst hreq
    exact (safe_cleanupZoneFold hfu sync.Spec.Zones (st, []) hP1
      (fun c hc => absurd hc (by simp))).2

/-- C1 (amended): for every external DNS record whose comment lacks the
sentinel `managed by cfgate` and which is not a TXT record named under the
ownership prefix, neither the per-hostname sync loop, nor orphan deletion,
nor the deletion-path cleanup issues an update or delete call for that
record — for either value of the cleanup policy's `onlyManaged` — provided
the record is uniquely identified in its zone by its ID and `(name, type)`
pair, server-assigned IDs are fresh, and previous status entries whose
record ID is the record's carry its hostname and type. -/
theorem dns_foreign_records_untouched :
    ∀ (st : CFState) (sync : CloudflareDNSSync) (tunnel : CloudflareTunnel)
      (hostnames : List String) (zones : List (String × String))
      (env : DeleteEnv) (tunnelName zr : String) (r : DNSRecord),
      foreignUnmarked r (effectiveOwnershipPfx sync) →
      recIdentified st zr r →
      (∀ n, freshID n ≠ r.ID) →
      (∀ p ∈ sync.Status.Records, p.RecordID = r.ID →
        p.Hostname = r.Name ∧ p.Type' = r.Type') →
      (∀ c ∈ (syncRecords st sync tunnel hostnames zones).2.2,
        touchesRecord zr r c = false) ∧
      (∀ res : CFState × List APICall,
        cleanupRecordsWithFallback env st sync tunnelName = Except.ok res →
        ∀ c ∈ res.2, touchesRecord zr r c = false) := by
  intro st sync tunnel hostnames zones env tunnelName zr r hfu hInv hfresh hprev
  constructor
  · have hcalls : (syncRecords st sync tunnel hostnames zones).2.2 =
        (sync.Status.Records.foldl
          (orphanStep sync zones hostnames (effectiveOwnershipPfx sync))
          (hostnames.foldl
            (syncHostnameStep sync tunnel zones (effectiveOwnershipPfx sync))
            ⟨st, [], 0, 0, 0, []⟩)).calls := rfl
    rw [hcalls]
    obtain ⟨hInv1, hsafe1⟩ := safe_syncFold hfu hfresh hostnames
      ⟨st, [], 0, 0, 0, []⟩ hInv (fun c hc => absurd hc (by simp))
    exact (safe_orphanFold hfu sync.Status.Records _ hprev hInv1 hsafe1).2
  · intro res hok
    exact safe_cleanupRecordsWithFallback hInv.2.1 hfu hok

/-- Witness for C1's amended statement: a concrete foreign CNAME record is
never the target of an update or delete call, in either path. -/
theorem dns_foreign_records_untouched_witness :
    (∀ c ∈ (syncRecords sampleState sampleSync sampleTunnel ["app.example.com"]
        [("example.com", "z1")]).2.2,
      touchesRecord "z1" sampleForeignRecord c = false) ∧
    (∀ res : CFState × List APICall,
      cleanupRecordsWithFallback
          { tunnelResolves := true, tunnelClientOK := true,
            fallbackSecretOK := true, fallbackTokenOK := true }
          sampleState sampleSync "t1" = Except.ok res →
      ∀ c ∈ res.2, touchesRecord "z1" sampleForeignRecord c = false) :=
  dns_foreign_records_untouched sampleState sampleSync sampleTunnel
    ["app.example.com"] [("example.com", "z1")]
    { tunnelResolves := true, tunnelClientOK := true,
      fallbackSecretOK := true, fallbackTokenOK := true }
    "t1" "z1" sampleForeignRecord
    (by unfold foreignUnmarked; decide)
    (by unfold recIdentified; decide)
    (by
      intro n h
      have hlen := congrArg String.length h
      rw [show freshID n = "cf-id-" ++ toString n from rfl,
        String.length_append] at hlen
      have h6 : ("cf-id-" : String).length = 6 := rfl
      have h3 : sampleForeignRecord.ID.length = 3 := rfl
      rw [h6, h3] at hlen
      omega)
    (by intro p hp; exact absurd hp (by simp [sampleSync]))

/-- The cleanup policy of `sampleSync` with `onlyManaged` disabled. -/
def cleanupSync : CloudflareDNSSync :=
  { sampleSync with Spec :=
      { sampleSync.Spec with CleanupPolicy :=
          { DeleteOnRouteRemoval := true, DeleteOnResourceRemoval := true,
            OnlyManaged := false } } }

/-- Counterexample for C1 as stated: during deletion-path cleanup with
`onlyManaged = false`, a TXT record whose name starts with the ownership
prefix is deleted even though its comment lacks the sentinel. -/
theorem dns_foreign_records_untouched_counterexample :
    strContains sampleForeignTXT.Comment "managed by cfgate" = false ∧
    sampleForeignTXT.Type' = "TXT" ∧
    strStartsWith sampleForeignTXT.Name ("_cfgate" ++ ".") = true ∧
    cleanupSync.Spec.CleanupPolicy.OnlyManaged = false ∧
    (cleanupRecordsWithFallback
        { tunnelResolves := true, tunnelClientOK := true,
          fallbackSecretOK := true, fallbackTokenOK := true }
        sampleStateTXT cleanupSync "t1").toOption.map (fun res => res.2) =
      some [APICall.delete "z1" "id7"] :=
  ⟨by decide, by decide, by decide, by decide, by decide⟩
